import Mathlib

/-!
Verification of the multi-account instance aggregation and control core of
`src/app.py` (Flask app over boto3 EC2 clients).

Shallow embedding conventions:

* Python dicts produced by the remote API (`describe_instances` reservations)
  are modelled as structures whose optional keys are `Option` fields; a key
  that is absent and a key that is present with value `None` behave
  identically under `dict.get`, and the code collapses a null `State` with
  `(... or {})`, so both are modelled as `none`.
* Python strings compare by unicode code point; Lean's `String` is a packed
  `List Char` of code points, so string comparison is modelled as the
  lexicographic order on `String.data` (identical semantics).  `str.lower`
  is modelled as mapping `Char.toLower` over the code points (ASCII case
  folding; the claims only involve ASCII labels).
* The remote API and the thread pool are external: each account's listing
  call is modelled as an input `Except String (List RawEc2)` (error message
  or raw instance pages, already flattened), and a fan-out round is a list
  of per-account results in *arrival* (completion) order.  `as_completed`
  yields an arbitrary permutation of the submitted accounts, which is why
  order-invariance of the grouped view is a claim to prove.
* Credential fields (`ak`, `sk`) flow only into the boto3 session and are
  omitted from the account model; `name` and `region` are kept because the
  control logic reads them (`account.get("name", "unknown")`, error texts).
* Mutating calls are observable as a trace of issued chunks; the outcome of
  each remote call is an oracle `List (Option String) → Option String`
  (`none` = success, `some msg` = the client error text).
-/

deriving instance DecidableEq for Except

/-- An account descriptor as handed to the core (a Python dict; `.get`
semantics modelled with `Option`). -/
structure Account where
  name : Option String
  region : Option String
deriving DecidableEq, Repr

/-- One entry of a raw instance's `Tags` list (`tag.get("Key")`,
`tag.get("Value")`). -/
structure Tag where
  key : Option String
  value : Option String
deriving DecidableEq, Repr

/-- The raw `State` sub-dict of a raw instance; `name` models the `"Name"`
key (absent key = `none`). -/
structure RawState where
  name : Option String
deriving DecidableEq, Repr

/-- A raw instance dict from a `describe_instances` reservation.  Nested
lookups guarded with `or {}` in the source (`State`, `Placement`) are
flattened: `none` models an absent or null sub-dict / key. -/
structure RawEc2 where
  instanceId : Option String
  tags : List Tag
  state : Option RawState
  instanceType : Option String
  placementAz : Option String
  publicIp : Option String
  privateIp : Option String
deriving DecidableEq, Repr

/-- The transformed instance record built by `transform_instance`
(the dict with keys `account`, `instance_id`, `name`, `state`, `type`,
`az`, `public_ip`, `private_ip`, `lab`). -/
structure Instance where
  account : String
  instance_id : Option String
  name : Option String
  state : String
  type : Option String
  az : Option String
  public_ip : Option String
  private_ip : Option String
  lab : Option String
deriving DecidableEq, Repr

/-- The tag whose key is truthy (`if tag.get("Key")`): a non-empty string. -/
def truthyKey (t : Tag) : Option String :=
  match t.key with
  | some s => if s = "" then none else some s
  | none => none

/-- Lookup in the dict comprehension
`{tag.get("Key"): tag.get("Value") for tag in tags if tag.get("Key")}` :
the *last* tag with the given truthy key wins (later dict entries
overwrite earlier ones).  Result `none` = key absent from the dict;
`some v` = key present with value `v` (itself optional: `tag.get("Value")`
may be null). -/
def tagsGet (tags : List Tag) (k : String) : Option (Option String) :=
  ((tags.filter (fun t => decide (truthyKey t = some k))).getLast?).map Tag.value

/-- `transform_instance(account_name, ec2)` from `src/app.py`. -/
def transform_instance (account_name : String) (ec2 : RawEc2) : Instance :=
  { account := account_name
    instance_id := ec2.instanceId
    name :=
      match tagsGet ec2.tags "Name" with
      | none => some ""
      | some v => v
    state :=
      match ec2.state with
      | none => "unknown"
      | some st => st.name.getD "unknown"
    type := ec2.instanceType
    az := ec2.placementAz
    public_ip := ec2.publicIp
    private_ip := ec2.privateIp
    lab :=
      match tagsGet ec2.tags "lab" with
      | none => none
      | some v => v }

/-- `fetch_instances_for_account` with the remote pages already flattened to
a raw instance list: it transforms every raw instance under the account's
name.  (Pagination, retries and the session/client setup are the external
adapter's concern; a failing call surfaces as the `Except.error` branch of
the per-account result.) -/
def fetch_instances_for_account (account_name : String) (raws : List RawEc2) :
    List Instance :=
  raws.map (transform_instance account_name)

/-- The grouping key `instance.get("lab") or "(no lab tag)"`:
a null or empty label normalizes to the sentinel group. -/
def labOf (i : Instance) : String :=
  match i.lab with
  | none => "(no lab tag)"
  | some s => if s = "" then "(no lab tag)" else s

/-- String `<` as the code compares it: Python compares strings by code
point, i.e. lexicographically on the character lists. -/
def strLt (a b : String) : Bool :=
  decide (a.data < b.data)

/-- `str.lower()` (ASCII case folding on the code points). -/
def strLower (s : String) : String :=
  ⟨s.data.map Char.toLower⟩

/-- Python tuple comparison on optional strings (second sort-key
component).  A present identifier never compares below an absent one;
mixed comparisons do not arise from the remote API (`InstanceId` is always
present), CPython would raise `TypeError` there. -/
def optStrLt : Option String → Option String → Bool
  | none, none => false
  | none, some _ => true
  | some _, none => false
  | some a, some b => strLt a b

/-- The within-group sort key comparison
`lambda x: (x.get("account"), x.get("instance_id"))` (Python tuple `<`). -/
def instLt (i j : Instance) : Bool :=
  if strLt i.account j.account then true
  else if strLt j.account i.account then false
  else optStrLt i.instance_id j.instance_id

/-- The across-group sort key comparison
`lambda item: item[0].lower()` on `(lab, instances)` pairs. -/
def labPairLt (p q : String × List Instance) : Bool :=
  strLt (strLower p.1) (strLower q.1)

/-- Stable insertion: place `x` after every strictly smaller element and
before the first element not below it. -/
def insertStable (lt : α → α → Bool) (x : α) : List α → List α
  | [] => [x]
  | y :: ys => if lt y x then y :: insertStable lt x ys else x :: y :: ys

/-- A stable sort (insertion sort).  Python's `list.sort` / `sorted` are
stable, and a stable sort under a fixed total preorder is unique, so this
computes exactly what the source's sorts compute. -/
def stableSort (lt : α → α → Bool) : List α → List α
  | [] => []
  | x :: xs => insertStable lt x (stableSort lt xs)

/-- `grouped.setdefault(lab_name, []).append(instance)` on an
insertion-ordered dict modelled as an association list. -/
def insertGrouped (m : List (String × List Instance)) (k : String)
    (v : Instance) : List (String × List Instance) :=
  match m with
  | [] => [(k, [v])]
  | (k', u) :: rest =>
    if k' = k then (k', u ++ [v]) :: rest else (k', u) :: insertGrouped rest k v

/-- The per-account grouping loop of `task` in
`fetch_all_accounts_grouped_by_lab`. -/
def groupByLab (l : List Instance) : List (String × List Instance) :=
  l.foldl (fun g i => insertGrouped g (labOf i) i) []

/-- `labs_to_instances.setdefault(lab_name, []).extend(instances)`. -/
def extendGrouped (m : List (String × List Instance)) (k : String)
    (vs : List Instance) : List (String × List Instance) :=
  match m with
  | [] => [(k, vs)]
  | (k', u) :: rest =>
    if k' = k then (k', u ++ vs) :: rest else (k', u) :: extendGrouped rest k vs

/-- The merge loop over one account's grouped result. -/
def mergeInto (acc : List (String × List Instance))
    (g : List (String × List Instance)) : List (String × List Instance) :=
  g.foldl (fun m p => extendGrouped m p.1 p.2) acc

/-- One account's fan-out result: the account descriptor paired with its
listing outcome (raw instances, or the text of the exception the listing
raised). -/
abbrev AccountResult : Type :=
  Account × Except String (List RawEc2)

/-- The per-account closure `task` of `fetch_all_accounts_grouped_by_lab`:
returns `(account name, grouped instances, error strings)`.  On a listing
failure the label falls back to `account.get("name", "unknown")`.  An
account descriptor without a name whose listing would succeed hits
`account["name"]` and the resulting `KeyError('name')` is caught by the
same handler (its `str` is `'name'`). -/
def task (r : AccountResult) :
    String × List (String × List Instance) × List String :=
  match r.2 with
  | Except.ok raws =>
    match r.1.name with
    | some n => (n, groupByLab (fetch_instances_for_account n raws), [])
    | none => ("unknown", [], ["unknown: 'name'"])
  | Except.error msg =>
    ((r.1.name.getD "unknown"), [],
      [(r.1.name.getD "unknown") ++ ": " ++ msg])

/-- `fetch_all_accounts_grouped_by_lab`, as a function of the per-account
results in arrival order: merge each grouped result into the shared map and
collect errors, then sort each group by `(account, instance_id)`, then sort
the groups by lowercased label (both sorts stable, as in CPython). -/
def fetch_all_accounts_grouped_by_lab (results : List AccountResult) :
    List (String × List Instance) × List String :=
  let merged := results.foldl
    (fun acc r => (mergeInto acc.1 (task r).2.1, acc.2 ++ (task r).2.2))
    ([], [])
  let sortedVals := merged.1.map (fun p => (p.1, stableSort instLt p.2))
  (stableSort labPairLt sortedVals, merged.2)

/-- Per-group summary dict (`total`, `powered_up`, `accounts`). -/
structure GroupSummary where
  total : Nat
  powered_up : Nat
  accounts : List String
deriving DecidableEq, Repr

/-- `sorted({i.get("account") for i in instances if i.get("account")})`:
the distinct truthy account names, sorted ascending. -/
def sortedAccountNames (instances : List Instance) : List String :=
  stableSort strLt (((instances.map Instance.account).filter
    (fun a => decide (a ≠ ""))).dedup)

/-- `summarize_labs` from `src/app.py`. -/
def summarize_labs (labs_to_instances : List (String × List Instance)) :
    List (String × GroupSummary) :=
  labs_to_instances.map (fun p =>
    (p.1,
      { total := p.2.length
        powered_up := p.2.countP (fun i => decide (i.state = "running"))
        accounts := sortedAccountNames p.2 }))

/-- Overall summary dict (`total`, `powered_up`, `off`). -/
structure Overall where
  total : Nat
  powered_up : Nat
  off : Nat
deriving DecidableEq, Repr

/-- `compute_overall_counts` from `src/app.py` (all counts are
counts of instances, hence naturals; `off = total - powered_up`). -/
def compute_overall_counts (summary : List (String × GroupSummary)) :
    Overall :=
  { total := (summary.map (fun p => p.2.total)).sum
    powered_up := (summary.map (fun p => p.2.powered_up)).sum
    off := (summary.map (fun p => p.2.total)).sum
      - (summary.map (fun p => p.2.powered_up)).sum }

/-- The fan-out worker pool bound `min(8, max(1, len(accounts)))`, used
verbatim at every fan-out site (the index read, both control-request
selection reads, and all recompute reads). -/
def pool_size (n : Nat) : Nat :=
  min 8 (max 1 n)

/-- The batching loop `for i in range(0, len(ids), 50): chunk = ids[i:i+50]`:
chunk `j` is the slice starting at `50 * j`, and the range has
`⌈n / 50⌉ = (n + 49) / 50` indices. -/
def chunks50 (l : List α) : List (List α) :=
  (List.range ((l.length + 49) / 50)).map (fun j => (l.drop (50 * j)).take 50)

/-- Issue the chunked remote calls in order; a failing call (which was
still issued) raises and aborts the remaining chunks.  Returns the trace of
issued calls and the error text, if any. -/
def runChunks (callO : List (Option String) → Option String)
    (failText : String) :
    List (List (Option String)) → List (List (Option String)) × Option String
  | [] => ([], none)
  | c :: cs =>
    match callO c with
    | none =>
      let r := runChunks callO failText cs
      (c :: r.1, r.2)
    | some msg => ([c], some (failText ++ msg))

/-- `stop_instances_for_account`: nothing to do on an empty id list,
otherwise issue the 50-sized chunks in order.  (Accounts reaching this
point come from the validated configuration and always carry `name` and
`region`; the `KeyError` a malformed descriptor would raise in the failure
text is not modelled.) -/
def stop_instances_for_account (account : Account)
    (callO : List (Option String) → Option String)
    (instance_ids : List (Option String)) :
    List (List (Option String)) × Option String :=
  if instance_ids.isEmpty then ([], none)
  else
    runChunks callO
      ("stop_instances failed in " ++ account.name.getD "" ++ " (" ++
        account.region.getD "" ++ "): ")
      (chunks50 instance_ids)

/-- `start_instances_for_account`: same batching as the stop path. -/
def start_instances_for_account (account : Account)
    (callO : List (Option String) → Option String)
    (instance_ids : List (Option String)) :
    List (List (Option String)) × Option String :=
  if instance_ids.isEmpty then ([], none)
  else
    runChunks callO
      ("start_instances failed in " ++ account.name.getD "" ++ " (" ++
        account.region.getD "" ++ "): ")
      (chunks50 instance_ids)

/-- The selection comprehension of `collect_task`:
`[i["instance_id"] for i in instances
   if (i.get("lab") or "(no lab tag)") == target_lab
   and i.get("state") == pre_state]`
with `pre_state = "running"` for stop and `"stopped"` for start. -/
def collect_ids (target_lab pre_state : String)
    (instances : List Instance) : List (Option String) :=
  (instances.filter (fun i =>
    decide (labOf i = target_lab) && decide (i.state = pre_state))).map
    Instance.instance_id

/-- The per-account closure `collect_task` of `stop_lab` / `start_lab`:
`(account name, matching instance ids, error strings)`, with the same
failure handling as the read fan-out's `task`. -/
def collect_task (target_lab pre_state : String) (r : AccountResult) :
    String × List (Option String) × List String :=
  match r.2 with
  | Except.ok raws =>
    match r.1.name with
    | some n =>
      (n, collect_ids target_lab pre_state (fetch_instances_for_account n raws), [])
    | none => ("unknown", [], ["unknown: 'name'"])
  | Except.error msg =>
    ((r.1.name.getD "unknown"), [],
      [(r.1.name.getD "unknown") ++ ": " ++ msg])

/-- `str.strip()` on the submitted form value (ASCII whitespace). -/
def pyStrip (s : String) : String :=
  ⟨((s.data.dropWhile Char.isWhitespace).reverse.dropWhile
    Char.isWhitespace).reverse⟩

/-- What a control request renders: the recomputed view, its summaries, and
the collected error / progress strings. -/
structure ControlResponse where
  labs_to_instances : List (String × List Instance)
  summary : List (String × GroupSummary)
  overall : Overall
  errors : List String
  messages : List String
deriving Repr

/-- The `stop_lab` request handler, as a function of the form value, the
loaded configuration result, and the oracles for the selection-round
listings, the remote stop calls, and the recompute-round listings.  The
second component is the trace of issued mutating calls
(account, chunk of instance ids).  Fan-out arrival order is modelled as
submission order; the grouped view is proven order-invariant separately. -/
def stop_lab (lab_form : Option String) (accounts : List Account)
    (config_errors : List String)
    (fetchSel : Account → Except String (List RawEc2))
    (callO : Account → List (Option String) → Option String)
    (fetchRe : Account → Except String (List RawEc2)) :
    ControlResponse × List (Account × List (Option String)) :=
  let target_lab := pyStrip (lab_form.getD "")
  let fetched := fetch_all_accounts_grouped_by_lab
    (accounts.map (fun a => (a, fetchRe a)))
  let summary := summarize_labs fetched.1
  let overall := compute_overall_counts summary
  if target_lab = "" then
    ({ labs_to_instances := fetched.1, summary := summary, overall := overall
       errors := ["Lab name is required."] ++ config_errors ++ fetched.2
       messages := [] }, [])
  else
    let collected := accounts.map
      (fun a => (a, collect_task target_lab "running" (a, fetchSel a)))
    let selErrors := collected.flatMap (fun p => p.2.2.2)
    let per_account_ids := collected.filterMap
      (fun p => if p.2.2.1.isEmpty then none else some (p.1, p.2.2.1))
    let messages := collected.filterMap (fun p =>
      if p.2.2.1.isEmpty then none
      else some (p.2.1 ++ ": stopping " ++ toString p.2.2.1.length ++
        " instance(s) in lab '" ++ target_lab ++ "'"))
    let mutated := per_account_ids.map
      (fun q => (q.1, stop_instances_for_account q.1 (callO q.1) q.2))
    let calls := mutated.flatMap (fun q => q.2.1.map (fun c => (q.1, c)))
    let mutErrors := mutated.flatMap (fun q =>
      match q.2.2 with
      | none => []
      | some e => [q.1.name.getD "unknown" ++ ": stop failed: " ++ e])
    ({ labs_to_instances := fetched.1, summary := summary, overall := overall
       errors := selErrors ++ mutErrors ++ config_errors ++ fetched.2
       messages := messages }, calls)

/-- The `start_lab` request handler (symmetric to `stop_lab`: precondition
state `"stopped"`, start calls, `"starting"` progress text). -/
def start_lab (lab_form : Option String) (accounts : List Account)
    (config_errors : List String)
    (fetchSel : Account → Except String (List RawEc2))
    (callO : Account → List (Option String) → Option String)
    (fetchRe : Account → Except String (List RawEc2)) :
    ControlResponse × List (Account × List (Option String)) :=
  let target_lab := pyStrip (lab_form.getD "")
  let fetched := fetch_all_accounts_grouped_by_lab
    (accounts.map (fun a => (a, fetchRe a)))
  let summary := summarize_labs fetched.1
  let overall := compute_overall_counts summary
  if target_lab = "" then
    ({ labs_to_instances := fetched.1, summary := summary, overall := overall
       errors := ["Lab name is required."] ++ config_errors ++ fetched.2
       messages := [] }, [])
  else
    let collected := accounts.map
      (fun a => (a, collect_task target_lab "stopped" (a, fetchSel a)))
    let selErrors := collected.flatMap (fun p => p.2.2.2)
    let per_account_ids := collected.filterMap
      (fun p => if p.2.2.1.isEmpty then none else some (p.1, p.2.2.1))
    let messages := collected.filterMap (fun p =>
      if p.2.2.1.isEmpty then none
      else some (p.2.1 ++ ": starting " ++ toString p.2.2.1.length ++
        " instance(s) in lab '" ++ target_lab ++ "'"))
    let mutated := per_account_ids.map
      (fun q => (q.1, start_instances_for_account q.1 (callO q.1) q.2))
    let calls := mutated.flatMap (fun q => q.2.1.map (fun c => (q.1, c)))
    let mutErrors := mutated.flatMap (fun q =>
      match q.2.2 with
      | none => []
      | some e => [q.1.name.getD "unknown" ++ ": start failed: " ++ e])
    ({ labs_to_instances := fetched.1, summary := summary, overall := overall
       errors := selErrors ++ mutErrors ++ config_errors ++ fetched.2
       messages := messages }, calls)

/-- The instances an account contributes to the grouped view: its
transformed listing when the listing succeeded (and the descriptor is
named), nothing otherwise. -/
def okInstances (r : AccountResult) : List Instance :=
  match r.2, r.1.name with
  | Except.ok raws, some n => fetch_instances_for_account n raws
  | _, _ => []

/-- All instances contributed by a fan-out round. -/
def allOkInstances (results : List AccountResult) : List Instance :=
  results.flatMap okInstances

/-- The instances appearing in a grouped view, groups concatenated. -/
def viewInstances (v : List (String × List Instance)) : List Instance :=
  v.flatMap Prod.snd

/-! ### Stable sort: permutation, sortedness, uniqueness -/

theorem insertStable_perm (lt : α → α → Bool) (x : α) (l : List α) :
    (insertStable lt x l).Perm (x :: l) := by
  induction l with
  | nil => exact List.Perm.refl _
  | cons y ys ih =>
    unfold insertStable
    by_cases h : lt y x = true
    · simp only [h, if_true]
      exact (ih.cons y).trans (List.Perm.swap x y ys)
    · simp only [Bool.not_eq_true] at h
      simp only [h, Bool.false_eq_true, if_false]
      exact List.Perm.refl _

theorem stableSort_perm (lt : α → α → Bool) (l : List α) :
    (stableSort lt l).Perm l := by
  induction l with
  | nil => exact List.Perm.refl _
  | cons x xs ih => exact (insertStable_perm lt x _).trans (ih.cons x)

theorem insertStable_sorted (lt : α → α → Bool)
    (hasym : ∀ a b, lt a b = true → lt b a = false)
    (hneg : ∀ a b c, lt b a = false → lt c b = false → lt c a = false)
    (x : α) (l : List α) (hl : l.Pairwise (fun a b => lt b a = false)) :
    (insertStable lt x l).Pairwise (fun a b => lt b a = false) := by
  induction l with
  | nil => simp [insertStable]
  | cons y ys ih =>
    rcases List.pairwise_cons.mp hl with ⟨hy, hys⟩
    unfold insertStable
    by_cases h : lt y x = true
    · simp only [h, if_true]
      refine List.pairwise_cons.mpr ⟨?_, ih hys⟩
      intro z hz
      rcases List.mem_cons.mp ((insertStable_perm lt x ys).mem_iff.mp hz) with
        hz1 | hz2
      · subst hz1; exact hasym y z h
      · exact hy z hz2
    · simp only [Bool.not_eq_true] at h
      simp only [h, Bool.false_eq_true, if_false]
      refine List.pairwise_cons.mpr ⟨?_, hl⟩
      intro z hz
      rcases List.mem_cons.mp hz with hz1 | hz2
      · subst hz1; exact h
      · exact hneg x y z h (hy z hz2)

theorem stableSort_sorted (lt : α → α → Bool)
    (hasym : ∀ a b, lt a b = true → lt b a = false)
    (hneg : ∀ a b c, lt b a = false → lt c b = false → lt c a = false)
    (l : List α) :
    (stableSort lt l).Pairwise (fun a b => lt b a = false) := by
  induction l with
  | nil => simp [stableSort]
  | cons x xs ih => exact insertStable_sorted lt hasym hneg x _ ih

theorem eq_of_perm_of_sortedB (lt : α → α → Bool)
    (l₁ l₂ : List α) (hp : l₁.Perm l₂)
    (hs₁ : l₁.Pairwise (fun a b => lt b a = false))
    (hs₂ : l₂.Pairwise (fun a b => lt b a = false))
    (hanti : ∀ a ∈ l₁, ∀ b ∈ l₁, lt a b = false → lt b a = false → a = b) :
    l₁ = l₂ := by
  induction l₁ generalizing l₂ with
  | nil => exact (List.Perm.eq_nil hp.symm).symm
  | cons a t₁ ih =>
    cases l₂ with
    | nil => exact absurd (List.Perm.eq_nil hp) (by simp)
    | cons b t₂ =>
      by_cases hab : a = b
      · subst hab
        have ht := hp.cons_inv
        have := ih t₂ ht (List.pairwise_cons.mp hs₁).2
          (List.pairwise_cons.mp hs₂).2
          (fun x hx y hy hxy hyx =>
            hanti x (List.mem_cons_of_mem a hx) y (List.mem_cons_of_mem a hy)
              hxy hyx)
        rw [this]
      · exfalso
        have ha2 : a ∈ b :: t₂ := hp.mem_iff.mp (List.mem_cons_self a t₁)
        have hat2 : a ∈ t₂ := by
          rcases List.mem_cons.mp ha2 with h | h
          · exact absurd h hab
          · exact h
        have hb1 : b ∈ a :: t₁ := hp.mem_iff.mpr (List.mem_cons_self b t₂)
        have hbt1 : b ∈ t₁ := by
          rcases List.mem_cons.mp hb1 with h | h
          · exact absurd h.symm hab
          · exact h
        have h1 : lt b a = false := (List.pairwise_cons.mp hs₁).1 b hbt1
        have h2 : lt a b = false := (List.pairwise_cons.mp hs₂).1 a hat2
        exact hab (hanti a (List.mem_cons_self a t₁) b
          (List.mem_cons_of_mem a hbt1) h2 h1)

/-! ### Properties of the comparison functions -/

theorem strLt_asym (a b : String) (h : strLt a b = true) : strLt b a = false := by
  unfold strLt at *
  simp_all
  exact le_of_lt h

theorem strLt_negTrans (a b c : String) (h1 : strLt b a = false)
    (h2 : strLt c b = false) : strLt c a = false := by
  unfold strLt at *
  simp_all
  exact le_trans h1 h2

theorem strLt_tie (a b : String) (h1 : strLt a b = false)
    (h2 : strLt b a = false) : a = b := by
  unfold strLt at *
  simp_all
  exact String.ext (le_antisymm h2 h1)

theorem optStrLt_asym (a b : Option String) (h : optStrLt a b = true) :
    optStrLt b a = false := by
  cases a <;> cases b <;> simp_all [optStrLt]
  exact strLt_asym _ _ h

theorem optStrLt_negTrans (a b c : Option String) (h1 : optStrLt b a = false)
    (h2 : optStrLt c b = false) : optStrLt c a = false := by
  cases a <;> cases b <;> cases c <;> simp_all [optStrLt]
  exact strLt_negTrans _ _ _ h1 h2

theorem optStrLt_tie (a b : Option String) (h1 : optStrLt a b = false)
    (h2 : optStrLt b a = false) : a = b := by
  cases a <;> cases b <;> simp_all [optStrLt]
  exact strLt_tie _ _ h1 h2

theorem instLt_asym (i j : Instance) (h : instLt i j = true) :
    instLt j i = false := by
  unfold instLt at *
  by_cases h1 : strLt i.account j.account = true
  · simp only [strLt_asym _ _ h1, h1, Bool.false_eq_true, if_false, if_true]
  · simp only [Bool.not_eq_true] at h1
    simp only [h1, Bool.false_eq_true, if_false] at h ⊢
    by_cases h2 : strLt j.account i.account = true
    · simp [h2] at h
    · simp only [Bool.not_eq_true] at h2
      simp only [h2, Bool.false_eq_true, if_false] at h ⊢
      exact optStrLt_asym _ _ h

theorem instLt_negTrans (i j k : Instance) (h1 : instLt j i = false)
    (h2 : instLt k j = false) : instLt k i = false := by
  unfold instLt at *
  by_cases hji : strLt j.account i.account = true
  · simp [hji] at h1
  · simp only [Bool.not_eq_true] at hji
    simp only [hji, Bool.false_eq_true, if_false] at h1
    by_cases hkj : strLt k.account j.account = true
    · simp [hkj] at h2
    · simp only [Bool.not_eq_true] at hkj
      simp only [hkj, Bool.false_eq_true, if_false] at h2
      have hki : strLt k.account i.account = false :=
        strLt_negTrans _ _ _ hji hkj
      simp only [hki, Bool.false_eq_true, if_false]
      by_cases hij : strLt i.account j.account = true
      · have hik : strLt i.account k.account = true := by
          by_cases hik' : strLt i.account k.account = true
          · exact hik'
          · exfalso
            simp only [Bool.not_eq_true] at hik'
            have := strLt_negTrans _ _ _ hkj hik'
            simp [this] at hij
        simp [hik]
      · simp only [Bool.not_eq_true] at hij
        simp only [hij, Bool.false_eq_true, if_false] at h1
        by_cases hjk : strLt j.account k.account = true
        · have hik : strLt i.account k.account = true := by
            by_cases hik' : strLt i.account k.account = true
            · exact hik'
            · exfalso
              simp only [Bool.not_eq_true] at hik'
              have := strLt_negTrans _ _ _ hik' hji
              simp [this] at hjk
          simp [hik]
        · simp only [Bool.not_eq_true] at hjk
          simp only [hjk, Bool.false_eq_true, if_false] at h2
          by_cases hik : strLt i.account k.account = true
          · simp [hik]
          · simp only [Bool.not_eq_true] at hik
            simp only [hik, Bool.false_eq_true, if_false]
            exact optStrLt_negTrans _ _ _ h1 h2

theorem instLt_tie (i j : Instance) (h1 : instLt i j = false)
    (h2 : instLt j i = false) :
    i.account = j.account ∧ i.instance_id = j.instance_id := by
  unfold instLt at *
  by_cases hij : strLt i.account j.account = true
  · simp [hij] at h1
  · simp only [Bool.not_eq_true] at hij
    simp only [hij, Bool.false_eq_true, if_false] at h1 ⊢
    by_cases hji : strLt j.account i.account = true
    · simp [hji] at h2
    · simp only [Bool.not_eq_true] at hji
      simp only [hji, Bool.false_eq_true, if_false] at h1 h2
      simp only [hij, Bool.false_eq_true, if_false] at h2
      exact ⟨strLt_tie _ _ hij hji, optStrLt_tie _ _ h1 h2⟩

theorem labPairLt_asym (p q : String × List Instance)
    (h : labPairLt p q = true) : labPairLt q p = false :=
  strLt_asym _ _ h

theorem labPairLt_negTrans (p q r : String × List Instance)
    (h1 : labPairLt q p = false) (h2 : labPairLt r q = false) :
    labPairLt r p = false :=
  strLt_negTrans _ _ _ h1 h2

theorem labPairLt_tie (p q : String × List Instance)
    (h1 : labPairLt p q = false) (h2 : labPairLt q p = false) :
    strLower p.1 = strLower q.1 :=
  strLt_tie _ _ h1 h2

/-! ### Association-list view of the insertion-ordered dicts -/

/-- First-match lookup in an insertion-ordered dict. -/
def lookupG (k : String) : List (String × List Instance) → Option (List Instance)
  | [] => none
  | (k', v) :: rest => if k' = k then some v else lookupG k rest

/-- Total lookup (absent key = empty list). -/
def lookupGD (k : String) (m : List (String × List Instance)) : List Instance :=
  (lookupG k m).getD []

/-- The keys of a dict, in insertion order. -/
def keysOf (m : List (String × List Instance)) : List String :=
  m.map Prod.fst

/-- The merged (pre-sort) grouped mapping of
`fetch_all_accounts_grouped_by_lab`, in arrival order. -/
def mergeAllG (results : List AccountResult) : List (String × List Instance) :=
  results.foldl (fun m r => mergeInto m (task r).2.1) []

/-- The error strings collected by the read fan-out, in arrival order. -/
def fetchErrors (results : List AccountResult) : List String :=
  results.flatMap (fun r => (task r).2.2)

/-- The instances of group `k` contributed by the results, in arrival
order. -/
def valueAt (k : String) (results : List AccountResult) : List Instance :=
  results.flatMap (fun r =>
    (okInstances r).filter (fun i => decide (labOf i = k)))

theorem task_grouped (r : AccountResult) :
    (task r).2.1 = groupByLab (okInstances r) := by
  rcases r with ⟨a, out⟩
  cases out with
  | ok raws =>
    cases h : a.name with
    | some n => simp [task, okInstances, h]
    | none => simp [task, okInstances, h, groupByLab]
  | error msg => simp [task, okInstances, groupByLab]

theorem fetch_fold_spec (results : List AccountResult)
    (m0 : List (String × List Instance)) (es0 : List String) :
    results.foldl
      (fun acc r => (mergeInto acc.1 (task r).2.1, acc.2 ++ (task r).2.2))
      (m0, es0) =
    (results.foldl (fun m r => mergeInto m (task r).2.1) m0,
      es0 ++ results.flatMap (fun r => (task r).2.2)) := by
  induction results generalizing m0 es0 with
  | nil => simp
  | cons r rest ih => simp [List.foldl_cons, ih, List.flatMap_cons]

theorem fetch_all_eq (results : List AccountResult) :
    fetch_all_accounts_grouped_by_lab results =
      (stableSort labPairLt
        ((mergeAllG results).map (fun p => (p.1, stableSort instLt p.2))),
        fetchErrors results) := by
  unfold fetch_all_accounts_grouped_by_lab mergeAllG fetchErrors
  rw [fetch_fold_spec]
  simp

theorem lookupG_insertGrouped (m : List (String × List Instance))
    (k : String) (v : Instance) (k' : String) :
    lookupG k' (insertGrouped m k v) =
      if k = k' then some ((lookupG k' m).getD [] ++ [v])
      else lookupG k' m := by
  induction m with
  | nil =>
    by_cases h : k = k' <;> simp [insertGrouped, lookupG, h]
  | cons p rest ih =>
    rcases p with ⟨k₁, u⟩
    unfold insertGrouped
    by_cases h1 : k₁ = k
    · subst h1
      by_cases h2 : k₁ = k'
      · subst h2; simp [lookupG]
      · simp [lookupG, h2]
    · simp only [h1, if_false]
      unfold lookupG
      by_cases h2 : k₁ = k'
      · subst h2
        have hkk : ¬ k = k₁ := fun h => h1 h.symm
        simp [hkk]
      · simp [h2, ih]

theorem lookupG_extendGrouped (m : List (String × List Instance))
    (k : String) (vs : List Instance) (k' : String) :
    lookupG k' (extendGrouped m k vs) =
      if k = k' then some ((lookupG k' m).getD [] ++ vs)
      else lookupG k' m := by
  induction m with
  | nil =>
    by_cases h : k = k' <;> simp [extendGrouped, lookupG, h]
  | cons p rest ih =>
    rcases p with ⟨k₁, u⟩
    unfold extendGrouped
    by_cases h1 : k₁ = k
    · subst h1
      by_cases h2 : k₁ = k'
      · subst h2; simp [lookupG]
      · simp [lookupG, h2]
    · simp only [h1, if_false]
      unfold lookupG
      by_cases h2 : k₁ = k'
      · subst h2
        have hkk : ¬ k = k₁ := fun h => h1 h.symm
        simp [hkk]
      · simp [h2, ih]

theorem lookupGD_foldl_insert (l : List Instance)
    (g : List (String × List Instance)) (k : String) :
    lookupGD k (l.foldl (fun g i => insertGrouped g (labOf i) i) g) =
      lookupGD k g ++ l.filter (fun i => decide (labOf i = k)) := by
  induction l generalizing g with
  | nil => simp
  | cons i l' ih =>
    rw [List.foldl_cons, ih, List.filter_cons]
    unfold lookupGD
    rw [lookupG_insertGrouped]
    by_cases h : labOf i = k
    · simp [h]
    · simp [h]

theorem lookupGD_groupByLab (l : List Instance) (k : String) :
    lookupGD k (groupByLab l) = l.filter (fun i => decide (labOf i = k)) := by
  unfold groupByLab
  rw [lookupGD_foldl_insert]
  simp [lookupGD, lookupG]

theorem lookupGD_mergeInto (g : List (String × List Instance))
    (acc : List (String × List Instance)) (k : String) :
    lookupGD k (mergeInto acc g) =
      lookupGD k acc ++
        g.flatMap (fun p => if p.1 = k then p.2 else []) := by
  induction g generalizing acc with
  | nil => simp [mergeInto]
  | cons p g' ih =>
    unfold mergeInto at *
    rw [List.foldl_cons, ih, List.flatMap_cons]
    unfold lookupGD
    rw [lookupG_extendGrouped]
    by_cases h : p.1 = k
    · simp [h]
    · simp [h]

theorem flatMap_key_of_nodupKeys (g : List (String × List Instance))
    (k : String) (hnd : (keysOf g).Nodup) :
    g.flatMap (fun p => if p.1 = k then p.2 else []) = lookupGD k g := by
  induction g with
  | nil => simp [lookupGD, lookupG]
  | cons p g' ih =>
    rcases p with ⟨k₁, v₁⟩
    simp only [keysOf, List.map_cons, List.nodup_cons] at hnd
    rcases hnd with ⟨hk₁, hnd'⟩
    rw [List.flatMap_cons]
    unfold lookupGD lookupG
    by_cases h : k₁ = k
    · subst h
      have : g'.flatMap (fun p => if p.1 = k₁ then p.2 else []) = [] := by
        apply List.flatMap_eq_nil_iff.mpr
        intro p hp
        have : p.1 ≠ k₁ := by
          intro he
          exact hk₁ (he ▸ List.mem_map_of_mem Prod.fst hp)
        simp [this]
      simp [this]
    · simp only [h, if_false]
      exact ih (by simpa [keysOf] using hnd')

theorem keys_insertGrouped (m : List (String × List Instance))
    (k : String) (v : Instance) :
    keysOf (insertGrouped m k v) = keysOf m ∨
      keysOf (insertGrouped m k v) = keysOf m ++ [k] := by
  induction m with
  | nil => right; simp [insertGrouped, keysOf]
  | cons q rest ihq =>
    rcases q with ⟨k₂, w⟩
    unfold insertGrouped
    by_cases h2 : k₂ = k
    · left; simp [h2, keysOf]
    · rcases ihq with he | he
      · left; simp only [h2, if_false, keysOf, List.map_cons]
        simp [keysOf] at he; exact congrArg (k₂ :: ·) he
      · right; simp only [h2, if_false, keysOf, List.map_cons]
        simp [keysOf] at he; simp [he]

theorem keys_extendGrouped (m : List (String × List Instance))
    (k : String) (vs : List Instance) :
    keysOf (extendGrouped m k vs) = keysOf m ∨
      keysOf (extendGrouped m k vs) = keysOf m ++ [k] := by
  induction m with
  | nil => right; simp [extendGrouped, keysOf]
  | cons q rest ihq =>
    rcases q with ⟨k₂, w⟩
    unfold extendGrouped
    by_cases h2 : k₂ = k
    · left; simp [h2, keysOf]
    · rcases ihq with he | he
      · left; simp only [h2, if_false, keysOf, List.map_cons]
        simp [keysOf] at he; exact congrArg (k₂ :: ·) he
      · right; simp only [h2, if_false, keysOf, List.map_cons]
        simp [keysOf] at he; simp [he]

theorem nodupKeys_insertGrouped (m : List (String × List Instance))
    (k : String) (v : Instance) (hnd : (keysOf m).Nodup) :
    (keysOf (insertGrouped m k v)).Nodup := by
  induction m with
  | nil => simp [insertGrouped, keysOf]
  | cons p rest ih =>
    rcases p with ⟨k₁, u⟩
    simp only [keysOf, List.map_cons, List.nodup_cons] at hnd
    rcases hnd with ⟨hk₁, hnd'⟩
    unfold insertGrouped
    by_cases h : k₁ = k
    · simp only [h, if_true, keysOf, List.map_cons, List.nodup_cons]
      exact ⟨by simpa [keysOf, h] using hk₁, by simpa [keysOf] using hnd'⟩
    · simp only [h, if_false, keysOf, List.map_cons, List.nodup_cons]
      constructor
      · intro hmem
        have hm : k₁ ∈ keysOf (insertGrouped rest k v) := by
          simpa [keysOf] using hmem
        rcases keys_insertGrouped rest k v with he | he
        · rw [he] at hm; exact hk₁ (by simpa [keysOf] using hm)
        · rw [he] at hm
          rcases List.mem_append.mp hm with hm2 | hm2
          · exact hk₁ (by simpa [keysOf] using hm2)
          · exact h (by simpa using hm2)
      · exact (by simpa [keysOf] using ih (by simpa [keysOf] using hnd'))

theorem nodupKeys_extendGrouped (m : List (String × List Instance))
    (k : String) (vs : List Instance) (hnd : (keysOf m).Nodup) :
    (keysOf (extendGrouped m k vs)).Nodup := by
  induction m with
  | nil => simp [extendGrouped, keysOf]
  | cons p rest ih =>
    rcases p with ⟨k₁, u⟩
    simp only [keysOf, List.map_cons, List.nodup_cons] at hnd
    rcases hnd with ⟨hk₁, hnd'⟩
    unfold extendGrouped
    by_cases h : k₁ = k
    · simp only [h, if_true, keysOf, List.map_cons, List.nodup_cons]
      exact ⟨by simpa [keysOf, h] using hk₁, by simpa [keysOf] using hnd'⟩
    · simp only [h, if_false, keysOf, List.map_cons, List.nodup_cons]
      constructor
      · intro hmem
        have hm : k₁ ∈ keysOf (extendGrouped rest k vs) := by
          simpa [keysOf] using hmem
        rcases keys_extendGrouped rest k vs with he | he
        · rw [he] at hm; exact hk₁ (by simpa [keysOf] using hm)
        · rw [he] at hm
          rcases List.mem_append.mp hm with hm2 | hm2
          · exact hk₁ (by simpa [keysOf] using hm2)
          · exact h (by simpa using hm2)
      · exact (by simpa [keysOf] using ih (by simpa [keysOf] using hnd'))

theorem nodupKeys_groupByLab (l : List Instance) :
    (keysOf (groupByLab l)).Nodup := by
  unfold groupByLab
  have main : ∀ (l : List Instance) (g : List (String × List Instance)),
      (keysOf g).Nodup →
      (keysOf (l.foldl (fun g i => insertGrouped g (labOf i) i) g)).Nodup := by
    intro l
    induction l with
    | nil => intro g hg; simpa using hg
    | cons i l' ih =>
      intro g hg
      rw [List.foldl_cons]
      exact ih _ (nodupKeys_insertGrouped g (labOf i) i hg)
  exact main l [] (by simp [keysOf])

theorem nodupKeys_mergeInto (g : List (String × List Instance))
    (acc : List (String × List Instance)) (hnd : (keysOf acc).Nodup) :
    (keysOf (mergeInto acc g)).Nodup := by
  induction g generalizing acc with
  | nil => simpa [mergeInto] using hnd
  | cons p g' ih =>
    unfold mergeInto at *
    rw [List.foldl_cons]
    exact ih _ (nodupKeys_extendGrouped acc p.1 p.2 hnd)

theorem nodupKeys_mergeAllG (results : List AccountResult) :
    (keysOf (mergeAllG results)).Nodup := by
  unfold mergeAllG
  have main : ∀ (rs : List AccountResult) (m : List (String × List Instance)),
      (keysOf m).Nodup →
      (keysOf (rs.foldl (fun m r => mergeInto m (task r).2.1) m)).Nodup := by
    intro rs
    induction rs with
    | nil => intro m hm; simpa using hm
    | cons r rest ih =>
      intro m hm
      rw [List.foldl_cons]
      exact ih _ (nodupKeys_mergeInto _ m hm)
  exact main results [] (by simp [keysOf])

theorem lookupGD_mergeAllG (results : List AccountResult) (k : String) :
    lookupGD k (mergeAllG results) = valueAt k results := by
  unfold mergeAllG valueAt
  have main : ∀ (rs : List AccountResult) (m : List (String × List Instance)),
      lookupGD k (rs.foldl (fun m r => mergeInto m (task r).2.1) m) =
        lookupGD k m ++ rs.flatMap (fun r =>
          (okInstances r).filter (fun i => decide (labOf i = k))) := by
    intro rs
    induction rs with
    | nil => intro m; simp
    | cons r rest ih =>
      intro m
      rw [List.foldl_cons, List.flatMap_cons, ih, lookupGD_mergeInto,
        task_grouped, flatMap_key_of_nodupKeys _ _ (nodupKeys_groupByLab _),
        lookupGD_groupByLab]
      simp [List.append_assoc]
  rw [main results []]
  simp [lookupGD, lookupG]

theorem vals_ne_nil_insertGrouped (m : List (String × List Instance))
    (k : String) (v : Instance) (hm : ∀ p ∈ m, p.2 ≠ []) :
    ∀ p ∈ insertGrouped m k v, p.2 ≠ [] := by
  induction m with
  | nil => simp [insertGrouped]
  | cons q rest ih =>
    rcases q with ⟨k₁, u⟩
    unfold insertGrouped
    by_cases h : k₁ = k
    · simp only [h, if_true]
      intro p hp
      rcases List.mem_cons.mp hp with hp1 | hp2
      · subst hp1; simp
      · exact hm p (List.mem_cons_of_mem _ hp2)
    · simp only [h, if_false]
      intro p hp
      rcases List.mem_cons.mp hp with hp1 | hp2
      · subst hp1; exact hm _ (List.mem_cons_self _ _)
      · exact ih (fun q hq => hm q (List.mem_cons_of_mem _ hq)) p hp2

theorem vals_ne_nil_extendGrouped (m : List (String × List Instance))
    (k : String) (vs : List Instance) (hvs : vs ≠ [])
    (hm : ∀ p ∈ m, p.2 ≠ []) :
    ∀ p ∈ extendGrouped m k vs, p.2 ≠ [] := by
  induction m with
  | nil => simpa [extendGrouped] using hvs
  | cons q rest ih =>
    rcases q with ⟨k₁, u⟩
    unfold extendGrouped
    by_cases h : k₁ = k
    · simp only [h, if_true]
      intro p hp
      rcases List.mem_cons.mp hp with hp1 | hp2
      · subst hp1; simp [hvs]
      · exact hm p (List.mem_cons_of_mem _ hp2)
    · simp only [h, if_false]
      intro p hp
      rcases List.mem_cons.mp hp with hp1 | hp2
      · subst hp1; exact hm _ (List.mem_cons_self _ _)
      · exact ih (fun q hq => hm q (List.mem_cons_of_mem _ hq)) p hp2

theorem vals_ne_nil_groupByLab (l : List Instance) :
    ∀ p ∈ groupByLab l, p.2 ≠ [] := by
  unfold groupByLab
  have main : ∀ (l : List Instance) (g : List (String × List Instance)),
      (∀ p ∈ g, p.2 ≠ []) →
      ∀ p ∈ l.foldl (fun g i => insertGrouped g (labOf i) i) g, p.2 ≠ [] := by
    intro l
    induction l with
    | nil => intro g hg; simpa using hg
    | cons i l' ih =>
      intro g hg
      rw [List.foldl_cons]
      exact ih _ (vals_ne_nil_insertGrouped g (labOf i) i hg)
  exact main l [] (by simp)

theorem vals_ne_nil_mergeInto (g : List (String × List Instance))
    (acc : List (String × List Instance)) (hg : ∀ p ∈ g, p.2 ≠ [])
    (hacc : ∀ p ∈ acc, p.2 ≠ []) :
    ∀ p ∈ mergeInto acc g, p.2 ≠ [] := by
  induction g generalizing acc with
  | nil => simpa [mergeInto] using hacc
  | cons q g' ih =>
    unfold mergeInto at *
    rw [List.foldl_cons]
    exact ih _ (fun p hp => hg p (List.mem_cons_of_mem _ hp))
      (vals_ne_nil_extendGrouped acc q.1 q.2
        (hg q (List.mem_cons_self _ _)) hacc)

theorem vals_ne_nil_mergeAllG (results : List AccountResult) :
    ∀ p ∈ mergeAllG results, p.2 ≠ [] := by
  unfold mergeAllG
  have main : ∀ (rs : List AccountResult) (m : List (String × List Instance)),
      (∀ p ∈ m, p.2 ≠ []) →
      ∀ p ∈ rs.foldl (fun m r => mergeInto m (task r).2.1) m, p.2 ≠ [] := by
    intro rs
    induction rs with
    | nil => intro m hm; simpa using hm
    | cons r rest ih =>
      intro m hm
      rw [List.foldl_cons]
      refine ih _ (vals_ne_nil_mergeInto _ m ?_ hm)
      rw [task_grouped]
      exact vals_ne_nil_groupByLab _
  exact main results [] (by simp)

theorem lookupG_eq_some_of_mem_keys (m : List (String × List Instance))
    (k : String) (hk : k ∈ keysOf m) : ∃ v, lookupG k m = some v ∧ (k, v) ∈ m := by
  induction m with
  | nil => simp [keysOf] at hk
  | cons p rest ih =>
    rcases p with ⟨k₁, u⟩
    unfold lookupG
    by_cases h : k₁ = k
    · subst h; exact ⟨u, by simp⟩
    · have : k ∈ keysOf rest := by
        rcases by simpa [keysOf] using hk with h1 | h1
        · exact absurd h1.symm h
        · simpa [keysOf] using h1
      rcases ih this with ⟨v, hv, hmem⟩
      exact ⟨v, by simp [h, hv], List.mem_cons_of_mem _ hmem⟩

theorem mem_keys_of_lookupG_eq_some (m : List (String × List Instance))
    (k : String) (v : List Instance) (h : lookupG k m = some v) :
    k ∈ keysOf m ∧ (k, v) ∈ m := by
  induction m with
  | nil => simp [lookupG] at h
  | cons p rest ih =>
    rcases p with ⟨k₁, u⟩
    unfold lookupG at h
    by_cases h1 : k₁ = k
    · subst h1
      simp only [if_true] at h
      exact ⟨by simp [keysOf], by simp [Option.some_inj.mp h]⟩
    · simp only [h1, if_false] at h
      rcases ih h with ⟨hk, hmem⟩
      exact ⟨by simp [keysOf] at hk ⊢; exact Or.inr hk,
        List.mem_cons_of_mem _ hmem⟩

theorem lookupG_mergeAllG (results : List AccountResult) (k : String) :
    lookupG k (mergeAllG results) =
      if valueAt k results = [] then none else some (valueAt k results) := by
  have hGD := lookupGD_mergeAllG results k
  unfold lookupGD at hGD
  by_cases hke : k ∈ keysOf (mergeAllG results)
  · rcases lookupG_eq_some_of_mem_keys _ k hke with ⟨v, hv, hmem⟩
    have hvne : v ≠ [] := vals_ne_nil_mergeAllG results (k, v) hmem
    rw [hv] at hGD ⊢
    simp only [Option.getD_some] at hGD
    subst hGD
    simp [hvne]
  · cases hl : lookupG k (mergeAllG results) with
    | some v => exact absurd (mem_keys_of_lookupG_eq_some _ _ _ hl).1 hke
    | none =>
      rw [hl] at hGD
      simp only [Option.getD_none] at hGD
      simp [← hGD]

/-! ### Multiset content of the merged mapping -/

theorem flatten_insertGrouped (m : List (String × List Instance))
    (k : String) (v : Instance) :
    (viewInstances (insertGrouped m k v)).Perm (viewInstances m ++ [v]) := by
  induction m with
  | nil => simp [insertGrouped, viewInstances]
  | cons p rest ih =>
    rcases p with ⟨k₁, u⟩
    unfold insertGrouped
    by_cases h : k₁ = k
    · simp only [h, if_true, viewInstances, List.flatMap_cons]
      have e1 : (u ++ [v]) ++ rest.flatMap Prod.snd
          = u ++ ([v] ++ rest.flatMap Prod.snd) := by simp
      have e2 : (u ++ rest.flatMap Prod.snd) ++ [v]
          = u ++ (rest.flatMap Prod.snd ++ [v]) := by simp
      rw [e1, e2]
      exact List.Perm.append_left u List.perm_append_comm
    · simp only [h, if_false, viewInstances, List.flatMap_cons]
      have hih : ((insertGrouped rest k v).flatMap Prod.snd).Perm
          (rest.flatMap Prod.snd ++ [v]) := by
        simpa [viewInstances] using ih
      refine (List.Perm.append_left u hih).trans ?_
      rw [← List.append_assoc]

theorem flatten_extendGrouped (m : List (String × List Instance))
    (k : String) (vs : List Instance) :
    (viewInstances (extendGrouped m k vs)).Perm (viewInstances m ++ vs) := by
  induction m with
  | nil => simp [extendGrouped, viewInstances]
  | cons p rest ih =>
    rcases p with ⟨k₁, u⟩
    unfold extendGrouped
    by_cases h : k₁ = k
    · simp only [h, if_true, viewInstances, List.flatMap_cons]
      have e1 : (u ++ vs) ++ rest.flatMap Prod.snd
          = u ++ (vs ++ rest.flatMap Prod.snd) := by simp
      have e2 : (u ++ rest.flatMap Prod.snd) ++ vs
          = u ++ (rest.flatMap Prod.snd ++ vs) := by simp
      rw [e1, e2]
      exact List.Perm.append_left u List.perm_append_comm
    · simp only [h, if_false, viewInstances, List.flatMap_cons]
      have hih : ((extendGrouped rest k vs).flatMap Prod.snd).Perm
          (rest.flatMap Prod.snd ++ vs) := by
        simpa [viewInstances] using ih
      refine (List.Perm.append_left u hih).trans ?_
      rw [← List.append_assoc]

theorem flatten_mergeInto (g : List (String × List Instance))
    (acc : List (String × List Instance)) :
    (viewInstances (mergeInto acc g)).Perm
      (viewInstances acc ++ viewInstances g) := by
  induction g generalizing acc with
  | nil => simp [mergeInto, viewInstances]
  | cons q g' ih =>
    unfold mergeInto at *
    rw [List.foldl_cons]
    refine (ih _).trans ?_
    have h1 := flatten_extendGrouped acc q.1 q.2
    refine (h1.append_right (viewInstances g')).trans ?_
    simp [viewInstances, List.append_assoc]

theorem flatten_groupByLab (l : List Instance) :
    (viewInstances (groupByLab l)).Perm l := by
  unfold groupByLab
  have main : ∀ (l : List Instance) (g : List (String × List Instance)),
      (viewInstances (l.foldl (fun g i => insertGrouped g (labOf i) i) g)).Perm
        (viewInstances g ++ l) := by
    intro l
    induction l with
    | nil => intro g; simp
    | cons i l' ih =>
      intro g
      rw [List.foldl_cons]
      refine (ih _).trans ?_
      have h1 := flatten_insertGrouped g (labOf i) i
      refine (h1.append_right l').trans ?_
      simp
  simpa [viewInstances] using main l []

theorem flatten_mergeAllG (results : List AccountResult) :
    (viewInstances (mergeAllG results)).Perm (allOkInstances results) := by
  unfold mergeAllG
  have main : ∀ (rs : List AccountResult) (m : List (String × List Instance)),
      (viewInstances (rs.foldl (fun m r => mergeInto m (task r).2.1) m)).Perm
        (viewInstances m ++ allOkInstances rs) := by
    intro rs
    induction rs with
    | nil => intro m; simp [allOkInstances]
    | cons r rest ih =>
      intro m
      rw [List.foldl_cons]
      refine (ih _).trans ?_
      have h1 := flatten_mergeInto (task r).2.1 m
      have h2 : (viewInstances (task r).2.1).Perm (okInstances r) := by
        rw [task_grouped]
        exact flatten_groupByLab _
      have h3 := (h1.trans (List.Perm.append_left _ h2)).append_right
        (allOkInstances rest)
      refine h3.trans ?_
      simp [allOkInstances, List.append_assoc]
  simpa [viewInstances] using main results []

/-! ### Association lists with distinct keys are determined by lookup -/

theorem lookupG_cons (k₁ : String) (u : List Instance)
    (rest : List (String × List Instance)) (k' : String) :
    lookupG k' ((k₁, u) :: rest) =
      if k₁ = k' then some u else lookupG k' rest := rfl

theorem lookupG_eq_none_of_not_mem (m : List (String × List Instance))
    (k : String) (hk : k ∉ keysOf m) : lookupG k m = none := by
  induction m with
  | nil => rfl
  | cons p rest ih =>
    rcases p with ⟨k₁, u⟩
    unfold lookupG
    have h1 : k₁ ≠ k := by
      intro h; exact hk (by simp [keysOf, h])
    simp only [h1, if_false]
    exact ih (fun h => hk (by simp [keysOf] at h ⊢; exact Or.inr h))

theorem lookupG_split (m : List (String × List Instance)) (k : String)
    (v : List Instance) (h : lookupG k m = some v) :
    ∃ a b, m = a ++ (k, v) :: b ∧ k ∉ keysOf a := by
  induction m with
  | nil => simp [lookupG] at h
  | cons p rest ih =>
    rcases p with ⟨k₁, u⟩
    unfold lookupG at h
    by_cases h1 : k₁ = k
    · subst h1
      simp only [if_true] at h
      exact ⟨[], rest, by simp [Option.some_inj.mp h], by simp [keysOf]⟩
    · simp only [h1, if_false] at h
      rcases ih h with ⟨a, b, he, hka⟩
      refine ⟨(k₁, u) :: a, b, by simp [he], ?_⟩
      intro hmem
      rcases by simpa [keysOf] using hmem with h2 | h2
      · exact h1 h2.symm
      · exact hka (by simpa [keysOf] using h2)

theorem lookupG_append_skip (a b : List (String × List Instance))
    (k k' : String) (v : List Instance) (hne : k ≠ k') :
    lookupG k' (a ++ (k, v) :: b) = lookupG k' (a ++ b) := by
  induction a with
  | nil => simp [lookupG, hne]
  | cons p a' ih =>
    rcases p with ⟨k₁, u⟩
    simp only [List.cons_append]
    unfold lookupG
    by_cases h1 : k₁ = k'
    · simp [h1]
    · simp [h1, ih]

theorem perm_of_lookupG_eq (m₁ m₂ : List (String × List Instance))
    (h₁ : (keysOf m₁).Nodup) (h₂ : (keysOf m₂).Nodup)
    (h : ∀ k, lookupG k m₁ = lookupG k m₂) : m₁.Perm m₂ := by
  induction m₁ generalizing m₂ with
  | nil =>
    cases m₂ with
    | nil => exact List.Perm.refl _
    | cons q t =>
      exfalso
      have := h q.1
      simp [lookupG] at this
  | cons p t₁ ih =>
    rcases p with ⟨k, v⟩
    have hv : lookupG k m₂ = some v := by
      have := h k
      simpa [lookupG] using this.symm
    rcases lookupG_split m₂ k v hv with ⟨a, b, he, hka⟩
    subst he
    have hknot₁ : k ∉ keysOf t₁ := by
      simp only [keysOf, List.map_cons, List.nodup_cons] at h₁
      exact h₁.1
    have hnd₁ : (keysOf t₁).Nodup := by
      simp only [keysOf, List.map_cons, List.nodup_cons] at h₁
      exact h₁.2
    have hkeys₂ : keysOf (a ++ (k, v) :: b) = keysOf a ++ k :: keysOf b := by
      simp [keysOf]
    have hknotb : k ∉ keysOf b := by
      rw [hkeys₂] at h₂
      have := List.Nodup.of_append_right h₂
      simp only [List.nodup_cons] at this
      exact this.1
    have hndab : (keysOf (a ++ b)).Nodup := by
      have : keysOf (a ++ b) = keysOf a ++ keysOf b := by simp [keysOf]
      rw [this]
      rw [hkeys₂] at h₂
      rcases List.nodup_append.mp h₂ with ⟨hna, hnkb, hdis⟩
      simp only [List.nodup_cons] at hnkb
      refine List.nodup_append.mpr ⟨hna, hnkb.2, ?_⟩
      intro x hxa hxb
      exact hdis hxa (List.mem_cons_of_mem _ hxb)
    have hlook : ∀ k', lookupG k' t₁ = lookupG k' (a ++ b) := by
      intro k'
      by_cases hkk : k = k'
      · subst hkk
        rw [lookupG_eq_none_of_not_mem t₁ k hknot₁]
        have hkab : k ∉ keysOf (a ++ b) := by
          have : keysOf (a ++ b) = keysOf a ++ keysOf b := by simp [keysOf]
          rw [this]
          intro hm
          rcases List.mem_append.mp hm with hm1 | hm1
          · exact hka hm1
          · exact hknotb hm1
        rw [lookupG_eq_none_of_not_mem _ k hkab]
      · have hthis := h k'
        rw [lookupG_append_skip a b k k' v hkk] at hthis
        rw [lookupG_cons, if_neg hkk] at hthis
        exact hthis
    have ht := ih (a ++ b) hnd₁ hndab hlook
    refine (ht.cons (k, v)).trans ?_
    exact List.perm_middle.symm

theorem lookupG_map_vals (m : List (String × List Instance))
    (f : List Instance → List Instance) (k : String) :
    lookupG k (m.map (fun p => (p.1, f p.2))) = (lookupG k m).map f := by
  induction m with
  | nil => rfl
  | cons p rest ih =>
    rcases p with ⟨k₁, u⟩
    simp only [List.map_cons]
    rw [lookupG_cons, lookupG_cons]
    by_cases h : k₁ = k
    · simp [h]
    · simp [h, ih]

theorem entry_inj_of_nodupKeys (m : List (String × List Instance))
    (hnd : (keysOf m).Nodup) (p q : String × List Instance)
    (hp : p ∈ m) (hq : q ∈ m) (hk : p.1 = q.1) : p = q := by
  induction m with
  | nil => simp at hp
  | cons r rest ih =>
    simp only [keysOf, List.map_cons, List.nodup_cons] at hnd
    rcases List.mem_cons.mp hp with hp1 | hp2 <;>
      rcases List.mem_cons.mp hq with hq1 | hq2
    · rw [hp1, hq1]
    · exfalso
      subst hp1
      exact hnd.1 (hk ▸ List.mem_map_of_mem Prod.fst hq2)
    · exfalso
      subst hq1
      exact hnd.1 (hk ▸ List.mem_map_of_mem Prod.fst hp2)
    · exact ih (by simpa [keysOf] using hnd.2) hp2 hq2

theorem mem_valueAt_allOk (k : String) (results : List AccountResult)
    (i : Instance) (hi : i ∈ valueAt k results) :
    i ∈ allOkInstances results ∧ labOf i = k := by
  unfold valueAt at hi
  rcases List.mem_flatMap.mp hi with ⟨r, hr, hmem⟩
  rcases List.mem_filter.mp hmem with ⟨hok, hlab⟩
  exact ⟨List.mem_flatMap.mpr ⟨r, hr, hok⟩, by simpa using hlab⟩

theorem mem_okInstances_account (r : AccountResult) (i : Instance)
    (hi : i ∈ okInstances r) :
    ∃ n raws, r.1.name = some n ∧ r.2 = Except.ok raws ∧
      i.account = n ∧ i ∈ fetch_instances_for_account n raws := by
  rcases r with ⟨a, out⟩
  cases out with
  | ok raws =>
    cases hn : a.name with
    | some n =>
      simp only [okInstances, hn] at hi
      refine ⟨n, raws, rfl, rfl, ?_, hi⟩
      rcases List.mem_map.mp hi with ⟨raw, _, he⟩
      rw [← he]
      rfl
    | none => simp [okInstances, hn] at hi
  | error msg => simp [okInstances] at hi

theorem allOk_key_inj (results : List AccountResult)
    (hnames : (results.map (fun r => r.1.name)).Nodup)
    (hids : ∀ r ∈ results, ∀ (raws : List RawEc2), r.2 = Except.ok raws →
      (raws.map RawEc2.instanceId).Nodup) :
    ∀ i ∈ allOkInstances results, ∀ j ∈ allOkInstances results,
      i.account = j.account → i.instance_id = j.instance_id → i = j := by
  induction results with
  | nil => simp [allOkInstances]
  | cons r rest ih =>
    simp only [List.map_cons, List.nodup_cons] at hnames
    intro i hi j hj hacc hid
    have hsplit : ∀ x : Instance, x ∈ allOkInstances (r :: rest) →
        x ∈ okInstances r ∨ x ∈ allOkInstances rest := by
      intro x hx
      unfold allOkInstances at hx
      rw [List.flatMap_cons] at hx
      exact List.mem_append.mp hx
    have hname_of_rest : ∀ x : Instance, x ∈ allOkInstances rest →
        ∃ r' ∈ rest, r'.1.name = some x.account := by
      intro x hx
      rcases List.mem_flatMap.mp hx with ⟨r', hr', hmem⟩
      rcases mem_okInstances_account r' x hmem with ⟨n, raws, hn, _, hxacc, _⟩
      exact ⟨r', hr', by rw [hn, hxacc]⟩
    rcases hsplit i hi with hi1 | hi2 <;> rcases hsplit j hj with hj1 | hj2
    · -- both from the same account result
      rcases mem_okInstances_account r i hi1 with ⟨n, raws, hn, hraws, _, hio⟩
      rcases mem_okInstances_account r j hj1 with ⟨n', raws', hn', hraws', _, hjo⟩
      have hnn : n = n' := by
        rw [hn] at hn'
        exact Option.some_inj.mp hn'
      have hrr : raws = raws' := by
        rw [hraws] at hraws'
        simpa using hraws'
      subst hnn
      subst hrr
      have hndids := hids r (List.mem_cons_self _ _) raws hraws
      rcases List.mem_map.mp hio with ⟨raw₁, hraw₁, he₁⟩
      rcases List.mem_map.mp hjo with ⟨raw₂, hraw₂, he₂⟩
      have hidraw : raw₁.instanceId = raw₂.instanceId := by
        have e₁ : i.instance_id = raw₁.instanceId := by rw [← he₁]; rfl
        have e₂ : j.instance_id = raw₂.instanceId := by rw [← he₂]; rfl
        rw [← e₁, ← e₂, hid]
      have hinj := List.inj_on_of_nodup_map hndids
      have : raw₁ = raw₂ := hinj hraw₁ hraw₂ hidraw
      rw [← he₁, ← he₂, this]
    · -- i from the head account, j from a later one: distinct names
      exfalso
      rcases mem_okInstances_account r i hi1 with ⟨n, _, hn, _, hiacc, _⟩
      rcases hname_of_rest j hj2 with ⟨r', hr', hn'⟩
      apply hnames.1
      have : r.1.name = r'.1.name := by
        rw [hn, hn', ← hiacc, hacc]
      rw [this]
      exact List.mem_map_of_mem (fun r => r.1.name) hr'
    · exfalso
      rcases mem_okInstances_account r j hj1 with ⟨n, _, hn, _, hjacc, _⟩
      rcases hname_of_rest i hi2 with ⟨r', hr', hn'⟩
      apply hnames.1
      have : r.1.name = r'.1.name := by
        rw [hn, hn', ← hjacc, hacc]
      rw [this]
      exact List.mem_map_of_mem (fun r => r.1.name) hr'
    · exact ih hnames.2
        (fun r' hr' => hids r' (List.mem_cons_of_mem _ hr')) i hi2 j hj2 hacc hid

theorem keysOf_map_vals (m : List (String × List Instance))
    (f : List Instance → List Instance) :
    keysOf (m.map (fun p => (p.1, f p.2))) = keysOf m := by
  induction m with
  | nil => rfl
  | cons p rest ih => simp [keysOf] at ih ⊢

theorem key_is_lab (results : List AccountResult) (k : String)
    (hk : k ∈ keysOf (mergeAllG results)) :
    ∃ i ∈ allOkInstances results, labOf i = k := by
  rcases lookupG_eq_some_of_mem_keys _ k hk with ⟨v, hv, hmem⟩
  have hvne : v ≠ [] := vals_ne_nil_mergeAllG results (k, v) hmem
  have hval : v = valueAt k results := by
    have := lookupGD_mergeAllG results k
    unfold lookupGD at this
    rw [hv] at this
    simpa using this
  rcases List.exists_mem_of_ne_nil v hvne with ⟨i, hi⟩
  rw [hval] at hi
  rcases mem_valueAt_allOk k results i hi with ⟨hall, hlab⟩
  exact ⟨i, hall, hlab⟩

/-- The grouped view (first component of the fan-out read), as the claims
refer to it. -/
def groupedView (results : List AccountResult) :
    List (String × List Instance) :=
  (fetch_all_accounts_grouped_by_lab results).1

theorem sorted_valueAt_eq (results₁ results₂ : List AccountResult)
    (hperm : results₁.Perm results₂)
    (hnames : (results₁.map (fun r => r.1.name)).Nodup)
    (hids : ∀ r ∈ results₁, ∀ (raws : List RawEc2), r.2 = Except.ok raws →
      (raws.map RawEc2.instanceId).Nodup) (k : String) :
    stableSort instLt (valueAt k results₁) =
      stableSort instLt (valueAt k results₂) := by
  have hvperm : (valueAt k results₁).Perm (valueAt k results₂) :=
    List.Perm.flatMap_right _ hperm
  have hinj := allOk_key_inj results₁ hnames hids
  refine eq_of_perm_of_sortedB instLt _ _
    (((stableSort_perm instLt _).trans hvperm).trans
      (stableSort_perm instLt _).symm)
    (stableSort_sorted instLt instLt_asym instLt_negTrans _)
    (stableSort_sorted instLt instLt_asym instLt_negTrans _) ?_
  intro a ha b hb hab hba
  have ha' := (stableSort_perm instLt _).mem_iff.mp ha
  have hb' := (stableSort_perm instLt _).mem_iff.mp hb
  rcases mem_valueAt_allOk k results₁ a ha' with ⟨haall, _⟩
  rcases mem_valueAt_allOk k results₁ b hb' with ⟨hball, _⟩
  rcases instLt_tie a b hab hba with ⟨hacc, hid⟩
  exact hinj a haall b hball hacc hid

theorem groupedView_arrival_invariant_core
    (results₁ results₂ : List AccountResult)
    (hperm : results₁.Perm results₂)
    (hnames : (results₁.map (fun r => r.1.name)).Nodup)
    (hids : ∀ r ∈ results₁, ∀ (raws : List RawEc2), r.2 = Except.ok raws →
      (raws.map RawEc2.instanceId).Nodup)
    (hlabs : ∀ i ∈ allOkInstances results₁, ∀ j ∈ allOkInstances results₁,
      strLower (labOf i) = strLower (labOf j) → labOf i = labOf j) :
    groupedView results₁ = groupedView results₂ := by
  unfold groupedView
  rw [fetch_all_eq, fetch_all_eq]
  simp only
  set f := fun p : String × List Instance => (p.1, stableSort instLt p.2)
    with hf
  have hnd₁ : (keysOf ((mergeAllG results₁).map f)).Nodup := by
    rw [hf, keysOf_map_vals]
    exact nodupKeys_mergeAllG results₁
  have hnd₂ : (keysOf ((mergeAllG results₂).map f)).Nodup := by
    rw [hf, keysOf_map_vals]
    exact nodupKeys_mergeAllG results₂
  have hlook : ∀ k, lookupG k ((mergeAllG results₁).map f) =
      lookupG k ((mergeAllG results₂).map f) := by
    intro k
    rw [hf, lookupG_map_vals, lookupG_map_vals, lookupG_mergeAllG,
      lookupG_mergeAllG]
    have hvperm : (valueAt k results₁).Perm (valueAt k results₂) :=
      List.Perm.flatMap_right _ hperm
    by_cases hemp : valueAt k results₁ = []
    · have hemp₂ : valueAt k results₂ = [] := by
        rw [hemp] at hvperm
        exact (List.Perm.eq_nil hvperm.symm)
      simp [hemp, hemp₂]
    · have hemp₂ : valueAt k results₂ ≠ [] := by
        intro h
        rw [h] at hvperm
        exact hemp (List.Perm.eq_nil hvperm)
      simp only [hemp, hemp₂, if_false, Option.map_some']
      rw [sorted_valueAt_eq results₁ results₂ hperm hnames hids k]
  have hA : ((mergeAllG results₁).map f).Perm ((mergeAllG results₂).map f) :=
    perm_of_lookupG_eq _ _ hnd₁ hnd₂ hlook
  refine eq_of_perm_of_sortedB labPairLt _ _
    (((stableSort_perm labPairLt _).trans hA).trans
      (stableSort_perm labPairLt _).symm)
    (stableSort_sorted labPairLt labPairLt_asym labPairLt_negTrans _)
    (stableSort_sorted labPairLt labPairLt_asym labPairLt_negTrans _) ?_
  intro p hp q hq hpq hqp
  have hp' := (stableSort_perm labPairLt _).mem_iff.mp hp
  have hq' := (stableSort_perm labPairLt _).mem_iff.mp hq
  have hlow := labPairLt_tie p q hpq hqp
  rcases List.mem_map.mp hp' with ⟨p₀, hp₀, hpe⟩
  rcases List.mem_map.mp hq' with ⟨q₀, hq₀, hqe⟩
  have hpkey : p.1 = p₀.1 := by rw [← hpe]
  have hqkey : q.1 = q₀.1 := by rw [← hqe]
  have hpk : p.1 ∈ keysOf (mergeAllG results₁) := by
    rw [hpkey]
    exact List.mem_map_of_mem Prod.fst hp₀
  have hqk : q.1 ∈ keysOf (mergeAllG results₁) := by
    rw [hqkey]
    exact List.mem_map_of_mem Prod.fst hq₀
  rcases key_is_lab results₁ p.1 hpk with ⟨i, hiall, hilab⟩
  rcases key_is_lab results₁ q.1 hqk with ⟨j, hjall, hjlab⟩
  have hkeyeq : p.1 = q.1 := by
    rw [← hilab, ← hjlab]
    exact hlabs i hiall j hjall (by rw [hilab, hjlab]; exact hlow)
  exact entry_inj_of_nodupKeys _ hnd₁ p q hp' hq' hkeyeq

/-! ### Decidable re-statements of the data-model hypotheses -/

/-- The raw instance identifiers an account's successful listing reports
(empty for a failed listing). -/
def okRawIds (r : AccountResult) : List (Option String) :=
  match r.2 with
  | Except.ok raws => raws.map RawEc2.instanceId
  | Except.error _ => []

/-- Whether a per-account result is a successful listing. -/
def isOkResult (r : AccountResult) : Bool :=
  match r.2 with
  | Except.ok _ => true
  | Except.error _ => false

/-! ### Claim C1 -/

/-- Account fixtures for the concrete instantiations. -/
def acctAlpha : Account := { name := some "alpha", region := some "r1" }

def acctBeta : Account := { name := some "beta", region := some "r1" }

/-- A running instance tagged with lab `"A"`. -/
def rawLabUpper : RawEc2 :=
  { instanceId := some "i-1"
    tags := [{ key := some "lab", value := some "A" }]
    state := some { name := some "running" }
    instanceType := none, placementAz := none
    publicIp := none, privateIp := none }

/-- A running instance tagged with lab `"a"` (same label up to case). -/
def rawLabLower : RawEc2 :=
  { instanceId := some "i-2"
    tags := [{ key := some "lab", value := some "a" }]
    state := some { name := some "running" }
    instanceType := none, placementAz := none
    publicIp := none, privateIp := none }

/-- The two-account fixture in one completion order... -/
def resultsOrderOne : List AccountResult :=
  [(acctAlpha, Except.ok [rawLabUpper]), (acctBeta, Except.ok [rawLabLower])]

/-- ...and in the opposite completion order. -/
def resultsOrderTwo : List AccountResult :=
  [(acctBeta, Except.ok [rawLabLower]), (acctAlpha, Except.ok [rawLabUpper])]

/-- C1 (counterexample): the aggregation is *not* invariant under the order
in which per-account results arrive.  With data-model-compliant inputs
(unique account names, unique instance ids) whose two labels `"A"` and
`"a"` differ only in case, the two completion orders yield different
Grouped Views: the final lab sort keys on the lowercased label, the sort is
stable, and the two labs tie, so their relative order is the arrival
order. -/
theorem c1_grouped_view_not_order_invariant :
    resultsOrderOne.Perm resultsOrderTwo ∧
    (resultsOrderOne.map (fun r => r.1.name)).Nodup ∧
    (∀ r ∈ resultsOrderOne, (okRawIds r).Nodup) ∧
    groupedView resultsOrderOne ≠ groupedView resultsOrderTwo := by
  refine ⟨by decide, by decide, by decide, by decide⟩

/-- C1 (amended): for a fixed multiset of per-account listing results with
account names unique within the run and instance identifiers unique within
each account's listing (both required by the data model), and provided
additionally that no two distinct normalized group labels are equal
case-insensitively, merging the per-account results in any completion
order and applying the final sorts yields the identical Grouped View. -/
theorem c1_grouped_view_order_invariant_amended
    (results₁ results₂ : List AccountResult)
    (hperm : results₁.Perm results₂)
    (hnames : (results₁.map (fun r => r.1.name)).Nodup)
    (hids : ∀ r ∈ results₁, (okRawIds r).Nodup)
    (hlabs : ∀ i ∈ allOkInstances results₁, ∀ j ∈ allOkInstances results₁,
      strLower (labOf i) = strLower (labOf j) → labOf i = labOf j) :
    groupedView results₁ = groupedView results₂ := by
  refine groupedView_arrival_invariant_core results₁ results₂ hperm hnames
    ?_ hlabs
  intro r hr raws hraw
  have h := hids r hr
  rcases r with ⟨a, out⟩
  subst hraw
  simpa [okRawIds] using h

/-- A running instance tagged with lab `"b"`. -/
def rawLabDistinct : RawEc2 :=
  { instanceId := some "i-2"
    tags := [{ key := some "lab", value := some "b" }]
    state := some { name := some "running" }
    instanceType := none, placementAz := none
    publicIp := none, privateIp := none }

/-- Labs `"A"` and `"b"`: case-insensitively distinct labels, one order... -/
def resultsDistinctOne : List AccountResult :=
  [(acctAlpha, Except.ok [rawLabUpper]), (acctBeta, Except.ok [rawLabDistinct])]

/-- ...and the opposite completion order. -/
def resultsDistinctTwo : List AccountResult :=
  [(acctBeta, Except.ok [rawLabDistinct]), (acctAlpha, Except.ok [rawLabUpper])]

/-- C1 (witness): the amended invariance applied to a concrete two-account
run with case-insensitively distinct labels. -/
theorem c1_grouped_view_order_invariant_witness :
    resultsDistinctOne.Perm resultsDistinctTwo ∧
    groupedView resultsDistinctOne = groupedView resultsDistinctTwo :=
  ⟨by decide,
    c1_grouped_view_order_invariant_amended resultsDistinctOne
      resultsDistinctTwo (by decide) (by decide) (by decide) (by decide)⟩

/-! ### Claim C2 -/

theorem summarize_sums (g : List (String × List Instance)) :
    ((summarize_labs g).map (fun p => p.2.total)).sum =
        (viewInstances g).length ∧
    ((summarize_labs g).map (fun p => p.2.powered_up)).sum =
        (viewInstances g).countP (fun i => decide (i.state = "running")) := by
  induction g with
  | nil => simp [summarize_labs, viewInstances]
  | cons p rest ih =>
    simp only [summarize_labs, viewInstances, List.map_cons, List.sum_cons,
      List.flatMap_cons, List.length_append, List.countP_append] at ih ⊢
    exact ⟨by rw [ih.1], by rw [ih.2]⟩

theorem countP_state_split (l : List Instance) :
    l.countP (fun i => decide (i.state = "running")) +
      l.countP (fun i => decide (i.state ≠ "running")) = l.length := by
  induction l with
  | nil => simp
  | cons i rest ih =>
    simp only [List.countP_cons, decide_not] at ih ⊢
    by_cases h : i.state = "running" <;> simp [h] <;> omega

/-- C2: for every Grouped View, the Overall Summary computed from its Group
Summaries satisfies `total = Σ group totals`,
`powered_up = Σ group powered_up`, and `powered_up + off = total`; moreover
`off` counts exactly the instances whose lifecycle state is not
`"running"`, so every non-running state (transitional or unknown) is
counted as off. -/
theorem c2_overall_summary_consistency (g : List (String × List Instance)) :
    (compute_overall_counts (summarize_labs g)).total =
        ((summarize_labs g).map (fun p => p.2.total)).sum ∧
    (compute_overall_counts (summarize_labs g)).powered_up =
        ((summarize_labs g).map (fun p => p.2.powered_up)).sum ∧
    (compute_overall_counts (summarize_labs g)).powered_up +
        (compute_overall_counts (summarize_labs g)).off =
        (compute_overall_counts (summarize_labs g)).total ∧
    (compute_overall_counts (summarize_labs g)).off =
        (viewInstances g).countP (fun i => decide (i.state ≠ "running")) := by
  rcases summarize_sums g with ⟨ht, hp⟩
  have hc := countP_state_split (viewInstances g)
  have hle : (viewInstances g).countP (fun i => decide (i.state = "running"))
      ≤ (viewInstances g).length := List.countP_le_length _
  unfold compute_overall_counts
  refine ⟨rfl, rfl, ?_, ?_⟩ <;>
    simp only [ht, hp] <;> omega

/-! ### Claim C3 -/

/-- C3 (amended): in every Grouped View produced by the read pipeline the
group keys appear in ascending order of their *lowercased* labels
(case-insensitive comparison, as §4.2 states), and within each group the
instance records are ascending by the `(account name, instance id)` pair.
The case-sensitive ordering stated in §3 does not hold (see the
counterexample). -/
theorem c3_grouped_view_sorted (results : List AccountResult) :
    ((groupedView results).Pairwise (fun p q => labPairLt q p = false)) ∧
    ∀ p ∈ groupedView results,
      p.2.Pairwise (fun i j => instLt j i = false) := by
  constructor
  · unfold groupedView
    rw [fetch_all_eq]
    exact stableSort_sorted labPairLt labPairLt_asym labPairLt_negTrans _
  · intro p hp
    unfold groupedView at hp
    rw [fetch_all_eq] at hp
    simp only at hp
    have hp' := (stableSort_perm labPairLt _).mem_iff.mp hp
    rcases List.mem_map.mp hp' with ⟨p₀, _, hpe⟩
    rw [← hpe]
    exact stableSort_sorted instLt instLt_asym instLt_negTrans _

/-- C3 (witness): the sortedness applied to the concrete two-account run;
the `"A"` group holds exactly alpha's transformed instance. -/
theorem c3_grouped_view_sorted_witness :
    ((groupedView resultsOrderOne).Pairwise
      (fun p q => labPairLt q p = false)) ∧
    ([transform_instance "alpha" rawLabUpper]).Pairwise
      (fun i j => instLt j i = false) :=
  ⟨(c3_grouped_view_sorted resultsOrderOne).1,
    (c3_grouped_view_sorted resultsOrderOne).2
      ("A", [transform_instance "alpha" rawLabUpper]) (by decide)⟩

/-- A running instance tagged with lab `"B"`. -/
def rawLabCapB : RawEc2 :=
  { instanceId := some "i-3"
    tags := [{ key := some "lab", value := some "B" }]
    state := some { name := some "running" }
    instanceType := none, placementAz := none
    publicIp := none, privateIp := none }

/-- One account listing instances labelled `"B"` and `"a"`. -/
def resultsCaseSens : List AccountResult :=
  [(acctAlpha, Except.ok [rawLabCapB, rawLabLower])]

/-- C3 (counterexample): the group keys of the Grouped View are *not*
sorted in case-sensitive lexicographic order (§3's wording): with labs
`"B"` and `"a"` the view lists `"a"` before `"B"`, but `"B" < "a"` by code
point. -/
theorem c3_grouped_view_not_case_sensitive_sorted :
    ¬ ((groupedView resultsCaseSens).Pairwise
      (fun p q => strLt q.1 p.1 = false)) := by decide

/-! ### Claim C4 -/

theorem chunks50_cons (l : List α) (h : l ≠ []) :
    chunks50 l = l.take 50 :: chunks50 (l.drop 50) := by
  have hlen : 1 ≤ l.length := List.length_pos.mpr h
  have hcount : (l.length + 49) / 50 = ((l.drop 50).length + 49) / 50 + 1 := by
    rw [List.length_drop]
    omega
  unfold chunks50
  rw [hcount, List.range_succ_eq_map]
  simp only [List.map_cons, Nat.mul_zero, List.drop_zero, List.map_map]
  congr 1
  apply List.map_congr_left
  intro j _
  simp only [Function.comp_apply, List.drop_drop]
  congr 2
  omega

theorem chunks50_flatten (l : List α) : (chunks50 l).flatten = l := by
  have main : ∀ (n : Nat) (l : List α), l.length ≤ n →
      (chunks50 l).flatten = l := by
    intro n
    induction n with
    | zero =>
      intro l hl
      have : l = [] := List.eq_nil_of_length_eq_zero (Nat.le_zero.mp hl)
      subst this
      simp [chunks50]
    | succ n ih =>
      intro l hl
      by_cases h : l = []
      · subst h; simp [chunks50]
      · rw [chunks50_cons l h, List.flatten_cons,
          ih (l.drop 50) (by rw [List.length_drop]; omega),
          List.take_append_drop]
  exact main l.length l le_rfl

theorem chunks50_length (l : List α) :
    (chunks50 l).length = (l.length + 49) / 50 := by
  simp [chunks50]

theorem chunks50_mem (l : List α) :
    ∀ c ∈ chunks50 l, c ≠ [] ∧ c.length ≤ 50 := by
  intro c hc
  unfold chunks50 at hc
  rcases List.mem_map.mp hc with ⟨j, hj, he⟩
  have hjlt : j < (l.length + 49) / 50 := List.mem_range.mp hj
  have hlt : 50 * j < l.length := by omega
  constructor
  · rw [← he]
    apply List.ne_nil_of_length_pos
    rw [List.length_take, List.length_drop]
    omega
  · rw [← he, List.length_take]
    exact min_le_left _ _

theorem runChunks_success (t : String) (cs : List (List (Option String))) :
    runChunks (fun _ => none) t cs = (cs, none) := by
  induction cs with
  | nil => rfl
  | cons c cs' ih => simp [runChunks, ih]

/-- C4: for every non-empty matched id list and an account whose remote
calls all succeed, the mutating step (stop and start alike) issues exactly
the consecutive 50-sized chunks of the ids in original order:
`⌈n / 50⌉ = (n + 49) / 50` calls, each non-empty and of size at most 50,
whose concatenation is the input list. -/
theorem c4_batch_chunking (acct : Account) (ids : List (Option String))
    (hne : ids ≠ []) :
    (stop_instances_for_account acct (fun _ => none) ids).1 = chunks50 ids ∧
    (start_instances_for_account acct (fun _ => none) ids).1 = chunks50 ids ∧
    (chunks50 ids).length = (ids.length + 49) / 50 ∧
    (chunks50 ids).flatten = ids ∧
    ∀ c ∈ chunks50 ids, c ≠ [] ∧ c.length ≤ 50 := by
  have hne' : ids.isEmpty = false := by
    cases ids with
    | nil => exact absurd rfl hne
    | cons a l => rfl
  refine ⟨?_, ?_, chunks50_length ids, chunks50_flatten ids, chunks50_mem ids⟩
  · unfold stop_instances_for_account
    rw [hne']
    simp [runChunks_success]
  · unfold start_instances_for_account
    rw [hne']
    simp [runChunks_success]

/-- 120 identifiers for the chunking witness. -/
def idsBatch : List (Option String) := List.replicate 120 (some "i-0")

/-- C4 (witness): with 120 matched identifiers exactly 3 calls of sizes 50,
50, 20 are issued, in order, and they concatenate back to the input. -/
theorem c4_batch_chunking_witness :
    (stop_instances_for_account acctAlpha (fun _ => none) idsBatch).1 =
        chunks50 idsBatch ∧
    (chunks50 idsBatch).map List.length = [50, 50, 20] ∧
    (chunks50 idsBatch).flatten = idsBatch :=
  ⟨(c4_batch_chunking acctAlpha idsBatch (by decide)).1, by decide,
    (c4_batch_chunking acctAlpha idsBatch (by decide)).2.2.2.1⟩

/-! ### Claim C5 -/

/-- C5: a control request (stop or start) whose submitted label strips to
the empty string, when the configuration loaded without errors and the
recompute read fan-out reports no errors, returns exactly one error string
`"Lab name is required."`, issues no mutating call to any account, and
still carries the freshly recomputed Grouped View with its Group Summaries
and Overall Summary. -/
theorem c5_empty_label_short_circuit
    (lab_form : Option String) (accounts : List Account)
    (config_errors : List String)
    (fetchSel : Account → Except String (List RawEc2))
    (callO : Account → List (Option String) → Option String)
    (fetchRe : Account → Except String (List RawEc2))
    (hempty : pyStrip (lab_form.getD "") = "")
    (hcfg : config_errors = [])
    (hfetch : (fetch_all_accounts_grouped_by_lab
      (accounts.map (fun a => (a, fetchRe a)))).2 = []) :
    ((stop_lab lab_form accounts config_errors fetchSel callO fetchRe).1.errors
        = ["Lab name is required."] ∧
     (stop_lab lab_form accounts config_errors fetchSel callO fetchRe).2
        = [] ∧
     (stop_lab lab_form accounts config_errors fetchSel callO
        fetchRe).1.labs_to_instances
        = groupedView (accounts.map (fun a => (a, fetchRe a))) ∧
     (stop_lab lab_form accounts config_errors fetchSel callO
        fetchRe).1.summary
        = summarize_labs
            (groupedView (accounts.map (fun a => (a, fetchRe a)))) ∧
     (stop_lab lab_form accounts config_errors fetchSel callO
        fetchRe).1.overall
        = compute_overall_counts (summarize_labs
            (groupedView (accounts.map (fun a => (a, fetchRe a)))))) ∧
    ((start_lab lab_form accounts config_errors fetchSel callO
        fetchRe).1.errors
        = ["Lab name is required."] ∧
     (start_lab lab_form accounts config_errors fetchSel callO fetchRe).2
        = [] ∧
     (start_lab lab_form accounts config_errors fetchSel callO
        fetchRe).1.labs_to_instances
        = groupedView (accounts.map (fun a => (a, fetchRe a))) ∧
     (start_lab lab_form accounts config_errors fetchSel callO
        fetchRe).1.summary
        = summarize_labs
            (groupedView (accounts.map (fun a => (a, fetchRe a)))) ∧
     (start_lab lab_form accounts config_errors fetchSel callO
        fetchRe).1.overall
        = compute_overall_counts (summarize_labs
            (groupedView (accounts.map (fun a => (a, fetchRe a)))))) := by
  subst hcfg
  constructor
  · unfold stop_lab
    simp [hempty, hfetch, groupedView]
  · unfold start_lab
    simp [hempty, hfetch, groupedView]

/-- C5 (witness): the short circuit on a concrete all-whitespace label with
one configured account whose listing succeeds. -/
theorem c5_empty_label_short_circuit_witness :
    (stop_lab (some "   ") [acctAlpha] [] (fun _ => Except.ok [])
        (fun _ _ => none) (fun _ => Except.ok [rawLabUpper])).1.errors
      = ["Lab name is required."] ∧
    (stop_lab (some "   ") [acctAlpha] [] (fun _ => Except.ok [])
        (fun _ _ => none) (fun _ => Except.ok [rawLabUpper])).2 = [] :=
  ⟨((c5_empty_label_short_circuit (some "   ") [acctAlpha] []
      (fun _ => Except.ok []) (fun _ _ => none)
      (fun _ => Except.ok [rawLabUpper]) (by decide) rfl
      (by decide)).1).1,
   ((c5_empty_label_short_circuit (some "   ") [acctAlpha] []
      (fun _ => Except.ok []) (fun _ _ => none)
      (fun _ => Except.ok [rawLabUpper]) (by decide) rfl
      (by decide)).1).2.1⟩

/-! ### Claim C6 -/

theorem task_errs_nil (r : AccountResult) (hok : isOkResult r = true)
    (hname : r.1.name ≠ none) : (task r).2.2 = [] := by
  rcases r with ⟨a, out⟩
  cases out with
  | ok raws =>
    cases hn : a.name with
    | some n => simp [task, hn]
    | none => exact absurd hn hname
  | error msg => simp [isOkResult] at hok

theorem viewInstances_map_sort (m : List (String × List Instance)) :
    (viewInstances (m.map (fun p => (p.1, stableSort instLt p.2)))).Perm
      (viewInstances m) := by
  induction m with
  | nil => simp [viewInstances]
  | cons p rest ih =>
    simp only [viewInstances, List.map_cons, List.flatMap_cons] at ih ⊢
    exact List.Perm.append (stableSort_perm instLt p.2) ih

theorem viewInstances_groupedView (results : List AccountResult) :
    (viewInstances (groupedView results)).Perm (allOkInstances results) := by
  unfold groupedView
  rw [fetch_all_eq]
  simp only
  refine List.Perm.trans ?_ (flatten_mergeAllG results)
  refine List.Perm.trans
    (List.Perm.flatMap_right Prod.snd (stableSort_perm labPairLt _)) ?_
  exact viewInstances_map_sort _

/-- C6: in a read fan-out where exactly one account's listing fails and
every other account succeeds (and is named), the error list is exactly one
string `"<account-name>: <message>"` — with label `"unknown"` when the
failing descriptor has no name — and the Grouped View contains exactly
(as a multiset) the instances of the succeeding accounts. -/
theorem c6_single_failure_isolated
    (pre post : List AccountResult) (b : Account) (msg : String)
    (hok : ∀ r ∈ pre ++ post, isOkResult r = true ∧ r.1.name ≠ none)
    (_hN : 1 ≤ (pre ++ post).length) :
    (fetch_all_accounts_grouped_by_lab
        (pre ++ (b, Except.error msg) :: post)).2
      = [(b.name.getD "unknown") ++ ": " ++ msg] ∧
    (viewInstances (groupedView (pre ++ (b, Except.error msg) :: post))).Perm
      (allOkInstances (pre ++ post)) := by
  constructor
  · rw [fetch_all_eq]
    simp only [fetchErrors]
    rw [List.flatMap_append, List.flatMap_cons]
    have hpre : pre.flatMap (fun r => (task r).2.2) = [] := by
      apply List.flatMap_eq_nil_iff.mpr
      intro r hr
      exact task_errs_nil r (hok r (List.mem_append_left _ hr)).1
        (hok r (List.mem_append_left _ hr)).2
    have hpost : post.flatMap (fun r => (task r).2.2) = [] := by
      apply List.flatMap_eq_nil_iff.mpr
      intro r hr
      exact task_errs_nil r (hok r (List.mem_append_right _ hr)).1
        (hok r (List.mem_append_right _ hr)).2
    have hmid : (task (b, Except.error msg)).2.2
        = [(b.name.getD "unknown") ++ ": " ++ msg] := by
      simp [task]
    rw [hpre, hpost, hmid]
    simp
  · refine (viewInstances_groupedView _).trans ?_
    unfold allOkInstances
    rw [List.flatMap_append, List.flatMap_cons, List.flatMap_append]
    have hmid : okInstances (b, Except.error msg) = [] := rfl
    rw [hmid]
    simp

/-- A descriptor with no resolvable name, for the `"unknown"` fallback. -/
def acctNoName : Account := { name := none, region := none }

/-- C6 (witness): one succeeding account plus one failing unnamed account;
the single error carries the `"unknown"` label and alpha's instance
survives in the view. -/
theorem c6_single_failure_isolated_witness :
    (fetch_all_accounts_grouped_by_lab
        ([(acctAlpha, Except.ok [rawLabUpper])] ++
          (acctNoName, Except.error "boom") :: [])).2
      = [(acctNoName.name.getD "unknown") ++ ": " ++ "boom"] ∧
    (viewInstances (groupedView
        ([(acctAlpha, Except.ok [rawLabUpper])] ++
          (acctNoName, Except.error "boom") :: []))).Perm
      (allOkInstances ([(acctAlpha, Except.ok [rawLabUpper])] ++ [])) :=
  c6_single_failure_isolated [(acctAlpha, Except.ok [rawLabUpper])] []
    acctNoName "boom" (by decide) (by decide)

/-! ### Claim C7 -/

/-- C7: an instance whose label field is null or empty normalizes to the
sentinel `"(no lab tag)"`; the sentinel group of the read pipeline holds
exactly the instances whose normalized label is the sentinel; and a
stop/start selection targeting the literal `"(no lab tag)"` collects
exactly the identifiers of the sentinel-grouped instances that are in the
precondition state — the grouping and selection normalizations agree on
every instance. -/
theorem c7_sentinel_round_trip (insts : List Instance) (s : String) :
    (∀ i ∈ insts, (i.lab = none ∨ i.lab = some "") →
      labOf i = "(no lab tag)") ∧
    lookupGD "(no lab tag)" (groupByLab insts) =
      insts.filter (fun i => decide (labOf i = "(no lab tag)")) ∧
    collect_ids "(no lab tag)" s insts =
      ((lookupGD "(no lab tag)" (groupByLab insts)).filter
        (fun i => decide (i.state = s))).map Instance.instance_id := by
  refine ⟨?_, lookupGD_groupByLab insts _, ?_⟩
  · intro i _ h
    rcases h with h | h <;> simp [labOf, h]
  · rw [lookupGD_groupByLab, List.filter_filter]
    unfold collect_ids
    congr 1
    apply List.filter_congr
    intro i _
    exact Bool.and_comm _ _

/-- An untagged running instance. -/
def instNoLab : Instance :=
  { account := "alpha", instance_id := some "i-9", name := some ""
    state := "running", type := none, az := none
    public_ip := none, private_ip := none, lab := none }

/-- C7 (witness): the round trip on a concrete untagged instance. -/
theorem c7_sentinel_round_trip_witness :
    labOf instNoLab = "(no lab tag)" ∧
    collect_ids "(no lab tag)" "running" [instNoLab] =
      ((lookupGD "(no lab tag)" (groupByLab [instNoLab])).filter
        (fun i => decide (i.state = "running"))).map Instance.instance_id ∧
    collect_ids "(no lab tag)" "running" [instNoLab] = [some "i-9"] :=
  ⟨(c7_sentinel_round_trip [instNoLab] "running").1 instNoLab (by decide)
      (by decide),
    (c7_sentinel_round_trip [instNoLab] "running").2.2,
    by decide⟩

/-! ### Claim C8 -/

/-- C8: for every account listing and target label, the stop selection
collects exactly the identifiers of the instances whose normalized label
equals the target and whose state is `"running"`, the start selection
those in state `"stopped"`, and every collected identifier belongs to an
instance in the required precondition state — no instance in any other
state is selected. -/
theorem c8_selection_predicates (insts : List Instance) (target : String) :
    collect_ids target "running" insts =
      (insts.filter (fun i =>
        decide (labOf i = target ∧ i.state = "running"))).map
        Instance.instance_id ∧
    collect_ids target "stopped" insts =
      (insts.filter (fun i =>
        decide (labOf i = target ∧ i.state = "stopped"))).map
        Instance.instance_id ∧
    (∀ x ∈ collect_ids target "running" insts, ∃ i, i ∈ insts ∧
      i.instance_id = x ∧ labOf i = target ∧ i.state = "running") ∧
    (∀ x ∈ collect_ids target "stopped" insts, ∃ i, i ∈ insts ∧
      i.instance_id = x ∧ labOf i = target ∧ i.state = "stopped") := by
  have hmem : ∀ (pre : String), ∀ x ∈ collect_ids target pre insts,
      ∃ i, i ∈ insts ∧ i.instance_id = x ∧ labOf i = target ∧
        i.state = pre := by
    intro pre x hx
    unfold collect_ids at hx
    rcases List.mem_map.mp hx with ⟨i, hi, he⟩
    rcases List.mem_filter.mp hi with ⟨hins, hcond⟩
    rcases Bool.and_eq_true_iff.mp hcond with ⟨h1, h2⟩
    exact ⟨i, hins, he, of_decide_eq_true h1, of_decide_eq_true h2⟩
  refine ⟨?_, ?_, hmem "running", hmem "stopped"⟩ <;>
    · unfold collect_ids
      simp only [Bool.decide_and]

/-- A running instance in lab `"x"`. -/
def instRunningX : Instance :=
  { account := "alpha", instance_id := some "i-10", name := some ""
    state := "running", type := none, az := none
    public_ip := none, private_ip := none, lab := some "x" }

/-- A stopped instance in lab `"x"`. -/
def instStoppedX : Instance :=
  { account := "alpha", instance_id := some "i-11", name := some ""
    state := "stopped", type := none, az := none
    public_ip := none, private_ip := none, lab := some "x" }

/-- A pending (transitional) instance in lab `"x"`. -/
def instPendingX : Instance :=
  { account := "alpha", instance_id := some "i-12", name := some ""
    state := "pending", type := none, az := none
    public_ip := none, private_ip := none, lab := some "x" }

/-- C8 (witness): on a listing with one running, one stopped and one
pending instance in lab `"x"`, the stop selection picks exactly the
running one and the start selection exactly the stopped one. -/
theorem c8_selection_predicates_witness :
    (∃ i, i ∈ [instRunningX, instStoppedX, instPendingX] ∧
      i.instance_id = some "i-10" ∧ labOf i = "x" ∧ i.state = "running") ∧
    collect_ids "x" "running" [instRunningX, instStoppedX, instPendingX] =
      [some "i-10"] ∧
    collect_ids "x" "stopped" [instRunningX, instStoppedX, instPendingX] =
      [some "i-11"] :=
  ⟨(c8_selection_predicates [instRunningX, instStoppedX, instPendingX]
      "x").2.2.1 (some "i-10") (by decide), by decide, by decide⟩

/-! ### Claim C9 -/

/-- C9: the worker-pool bound used by every fan-out round equals
`min(8, max(1, N))`: it is `1` for zero accounts, `N` for one to eight
accounts, `8` for eight or more, and always between 1 and 8. -/
theorem c9_pool_size_bound (n : Nat) :
    pool_size n = min 8 (max 1 n) ∧
    (n = 0 → pool_size n = 1) ∧
    (1 ≤ n → n ≤ 8 → pool_size n = n) ∧
    (8 ≤ n → pool_size n = 8) ∧
    1 ≤ pool_size n ∧ pool_size n ≤ 8 := by
  unfold pool_size
  refine ⟨rfl, ?_, ?_, ?_, ?_, ?_⟩ <;> omega

/-- C9 (witness): the bound at 0, 5 and 20 configured accounts. -/
theorem c9_pool_size_bound_witness :
    pool_size 0 = 1 ∧ pool_size 5 = 5 ∧ pool_size 20 = 8 :=
  ⟨(c9_pool_size_bound 0).2.1 rfl,
    (c9_pool_size_bound 5).2.2.1 (by decide) (by decide),
    (c9_pool_size_bound 20).2.2.2.1 (by decide)⟩

/-! ### Claim C10 -/

/-- C10: `transform_instance` is total and fills defaults: a missing (or
null) `State` yields lifecycle state `"unknown"`, which is none of the
enumerated states and which the Summarizer counts as powered-off; a
missing `Name` tag yields display name `""`; and the logical label comes
from the tag whose key is exactly `"lab"`, remaining null when that tag is
absent. -/
theorem c10_transform_defaults (n : String) (raw : RawEc2) :
    (raw.state = none → (transform_instance n raw).state = "unknown") ∧
    ((∀ t ∈ raw.tags, truthyKey t ≠ some "Name") →
      (transform_instance n raw).name = some "") ∧
    ((∀ t ∈ raw.tags, truthyKey t ≠ some "lab") →
      (transform_instance n raw).lab = none) ∧
    (∀ v, raw.tags.filter (fun t => decide (truthyKey t = some "lab")) = [v] →
      (transform_instance n raw).lab = v.value) ∧
    ("unknown" ≠ "running" ∧ "unknown" ≠ "stopped") ∧
    ((transform_instance n raw).state = "unknown" → ∀ L,
      compute_overall_counts (summarize_labs
        [(L, [transform_instance n raw])]) = ⟨1, 0, 1⟩) := by
  refine ⟨?_, ?_, ?_, ?_, ⟨by decide, by decide⟩, ?_⟩
  · intro h
    simp [transform_instance, h]
  · intro h
    have hfil : raw.tags.filter
        (fun t => decide (truthyKey t = some "Name")) = [] := by
      apply List.filter_eq_nil_iff.mpr
      intro t ht
      simpa using h t ht
    simp [transform_instance, tagsGet, hfil]
  · intro h
    have hfil : raw.tags.filter
        (fun t => decide (truthyKey t = some "lab")) = [] := by
      apply List.filter_eq_nil_iff.mpr
      intro t ht
      simpa using h t ht
    simp [transform_instance, tagsGet, hfil]
  · intro v hv
    simp [transform_instance, tagsGet, hv]
  · intro hunk L
    unfold compute_overall_counts summarize_labs
    simp [List.countP_cons, hunk]

/-- A raw instance with no tags and no state. -/
def rawBare : RawEc2 :=
  { instanceId := some "i-20", tags := [], state := none
    instanceType := none, placementAz := none
    publicIp := none, privateIp := none }

/-- C10 (witness): the defaults on a concrete bare raw instance, and the
Summarizer counting its `"unknown"` state as off. -/
theorem c10_transform_defaults_witness :
    (transform_instance "alpha" rawBare).state = "unknown" ∧
    (transform_instance "alpha" rawBare).name = some "" ∧
    (transform_instance "alpha" rawBare).lab = none ∧
    compute_overall_counts (summarize_labs
      [("L", [transform_instance "alpha" rawBare])]) = ⟨1, 0, 1⟩ :=
  ⟨(c10_transform_defaults "alpha" rawBare).1 rfl,
    (c10_transform_defaults "alpha" rawBare).2.1 (by decide),
    (c10_transform_defaults "alpha" rawBare).2.2.1 (by decide),
    (c10_transform_defaults "alpha" rawBare).2.2.2.2.2 (by decide) "L"⟩
